import Mathlib

set_option linter.unusedVariables false

/-! Shallow embedding of the Cardistry game server
    (apps/server/src/logic/gameServer.ts).

    JavaScript strings are modelled as `String` for identifiers and names,
    except the card strings, which are modelled as a rank/suit pair plus an
    explicit character-list rendering so that the server's
    `c.startsWith(claimedRank)` test is embedded faithfully.
    JavaScript array operations (`indexOf`, `splice`, `slice`, `find`,
    `findIndex`) are modelled by the `js` helpers below with JavaScript
    semantics, including the negative-index behaviour of `splice` and
    `slice`.  Each socket handler is a pure function returning
    `Option GameState`; `none` models the silent early `return`
    (no mutation, no broadcast).  `Date.now()` is passed explicitly as a
    natural number `now`; the `Math.random` draws of the shuffle are
    passed as an explicit `choice : Nat → Nat` function (the draw at
    loop index `i` is `choice i`, which real randomness keeps in
    `[0, i]`). -/

inductive CardRank
  | A | r2 | r3 | r4 | r5 | r6 | r7 | r8 | r9 | r10 | J | Q | K
deriving DecidableEq, Repr, Fintype

inductive CardSuit
  | S | H | D | C
deriving DecidableEq, Repr, Fintype

/-- A card, `gameServer.ts` type `Card` (template string rank ++ suit). -/
structure Card where
  rank : CardRank
  suit : CardSuit
deriving DecidableEq, Repr, Fintype

/-- The character rendering of a rank (the `CardRank` string literal). -/
def rankChars : CardRank → List Char
  | .A => ['A']
  | .r2 => ['2']
  | .r3 => ['3']
  | .r4 => ['4']
  | .r5 => ['5']
  | .r6 => ['6']
  | .r7 => ['7']
  | .r8 => ['8']
  | .r9 => ['9']
  | .r10 => ['1', '0']
  | .J => ['J']
  | .Q => ['Q']
  | .K => ['K']

/-- The character rendering of a suit (the `CardSuit` string literal). -/
def suitChars : CardSuit → List Char
  | .S => ['S']
  | .H => ['H']
  | .D => ['D']
  | .C => ['C']

/-- The string a card is stored as on the server (rank ++ suit). -/
def cardChars (c : Card) : List Char :=
  rankChars c.rank ++ suitChars c.suit

/-- Embedding of `c.startsWith(claimedRank)` from the `game:bs` handler. -/
def bsStartsWith (c : Card) (r : CardRank) : Bool :=
  (rankChars r).isPrefixOf (cardChars c)

/-- JavaScript `Array.prototype.indexOf`: first index of an element,
    `-1` if absent. -/
def jsIndexOf {α : Type} [DecidableEq α] : List α → α → Int
  | [], _ => -1
  | a :: rest, t =>
    if a = t then 0
    else
      let r := jsIndexOf rest t
      if r = -1 then -1 else r + 1

/-- JavaScript `arr.splice(start, 1)`: a negative `start` counts from the
    end of the array clamped at `0`; a `start` at or beyond the end
    deletes nothing. -/
def jsSplice1 {α : Type} (l : List α) (idx : Int) : List α :=
  let start : Nat := if idx < 0 then ((l.length : Int) + idx).toNat else min idx.toNat l.length
  l.take start ++ l.drop (start + 1)

/-- JavaScript `arr.slice(-n)` for a natural `n`: the last `n` elements
    (the whole array when `n` is `0`, because `-0` is `0`, or when
    `n ≥ length`). -/
def jsSliceNeg {α : Type} (l : List α) (n : Nat) : List α :=
  if n = 0 then l else l.drop (l.length - n)

/-- JavaScript `Array.prototype.findIndex` (and, composed with lookup,
    `Array.prototype.find`): index of the first element satisfying the
    predicate. -/
def jsFindIndex {α : Type} (p : α → Prop) [DecidablePred p] : List α → Option Nat
  | [] => none
  | a :: rest => if p a then some 0 else (jsFindIndex p rest).map (· + 1)

/-- Helper `ceilDiv` from gameServer.ts: `Math.floor((a + b - 1) / b)`. -/
def ceilDiv (a b : Nat) : Nat := (a + b - 1) / b

/-- Server-side per-player state (gameServer.ts `PlayerState`). -/
structure PlayerState where
  id : String
  name : String
  socketId : String
  hand : List Card
  isHost : Bool
deriving DecidableEq, Repr

/-- Record of the most recent play (gameServer.ts `PlayRecord`). -/
structure PlayRecord where
  username : String
  count : Nat
  claimedRank : CardRank
deriving DecidableEq, Repr

/-- Per-session state (gameServer.ts `GameState`).  The optional fields
    `bsWindowUntil`, `peanutButterEligiblePlayerId` use `Option` for
    `undefined`; the optional boolean `hasNextPlayerPlayedAfterLiar` is a
    `Bool` (JavaScript treats `undefined` as false there). -/
structure GameState where
  id : String
  players : List PlayerState
  hostId : String
  started : Bool
  currentTurnIndex : Nat
  currentRequiredRank : CardRank
  pileFaceDown : List Card
  lastPlay : Option PlayRecord
  bsWindowUntil : Option Nat
  peanutButterEligiblePlayerId : Option String
  hasNextPlayerPlayedAfterLiar : Bool
deriving DecidableEq, Repr

/-- The rank cycle `ranksInOrder` from gameServer.ts. -/
def ranksInOrder : List CardRank :=
  [.A, .r2, .r3, .r4, .r5, .r6, .r7, .r8, .r9, .r10, .J, .Q, .K]

/-- Function `nextRank`: one cyclic step along `ranksInOrder`
    (`indexOf` never returns `-1` here since every rank is listed). -/
def nextRank (r : CardRank) : CardRank :=
  let idx := jsIndexOf ranksInOrder r
  ranksInOrder.getD ((idx + 1).toNat % ranksInOrder.length) .A

/-- The 13 ranks in the order `createDeck` iterates them. -/
def allRanks : List CardRank :=
  [.A, .r2, .r3, .r4, .r5, .r6, .r7, .r8, .r9, .r10, .J, .Q, .K]

/-- The 4 suits in the order `createDeck` iterates them. -/
def allSuits : List CardSuit := [.S, .H, .D, .C]

/-- One 52-card block, in the order the nested rank/suit `for` loops of
    `createDeck` push the cards. -/
def oneDeck : List Card :=
  allRanks.flatMap (fun r => allSuits.map (fun s => ⟨r, s⟩))

/-- The unshuffled deck contents built by the outer `numDecks` loop of
    `createDeck`. -/
def baseDeck (numDecks : Nat) : List Card :=
  (List.range numDecks).flatMap (fun _ => oneDeck)

/-- The Fisher–Yates swap `[deck[i], deck[j]] = [deck[j], deck[i]]`
    (a no-op when either index is out of range, which real draws avoid). -/
def swapAt (l : List Card) (i j : Nat) : List Card :=
  match l[i]?, l[j]? with
  | some a, some b => (l.set i b).set j a
  | _, _ => l

/-- The shuffle loop of `createDeck`, running the index `i` downward from
    its current value to `1`; at index `i` the drawn position is
    `choice i`. -/
def shuffleFrom (choice : Nat → Nat) : Nat → List Card → List Card
  | 0, deck => deck
  | i + 1, deck => shuffleFrom choice i (swapAt deck (i + 1) (choice (i + 1)))

/-- Function `createDeck`: build `numDecks` blocks, then Fisher–Yates
    shuffle from index `length - 1` down to `1`. -/
def createDeck (numDecks : Nat) (choice : Nat → Nat) : List Card :=
  let deck := baseDeck numDecks
  shuffleFrom choice (deck.length - 1) deck

/-- Append one card to the hand of the player at index `r`
    (the `recipient.hand.push(...)` mutation; out-of-range is impossible
    in the server because `r` is reduced modulo the player count). -/
def pushCardAt (ps : List PlayerState) (r : Nat) (c : Card) : List PlayerState :=
  match ps[r]? with
  | some p => ps.set r { p with hand := p.hand ++ [c] }
  | none => ps

/-- The `while (deck.length > 0)` loop of `dealHands`.  JavaScript
    `deck.pop()` removes from the END of the array, so the loop hands the
    cards out in reverse deck order; `dealFrom` therefore consumes the
    REVERSED deck from the head.  `i` is the loop counter. -/
def dealFrom (start : Nat) : List Card → Nat → List PlayerState → List PlayerState
  | [], _, ps => ps
  | c :: rest, i, ps => dealFrom start rest (i + 1) (pushCardAt ps ((start + i) % ps.length) c)

/-- Function `dealHands(players, dealerId)`: sizes the deck from the
    player count, finds the dealer (`Math.max(0, findIndex)` maps a
    missing dealer to index `0`) and deals round-robin starting from the
    player after the dealer until the deck is empty. -/
def dealHands (players : List PlayerState) (dealerId : String) (choice : Nat → Nat) :
    List PlayerState :=
  let numDecks := max 1 (ceilDiv players.length 5)
  let deck := createDeck numDecks choice
  let dealerIndex : Nat :=
    match jsFindIndex (fun p : PlayerState => p.id = dealerId) players with
    | some k => k
    | none => 0
  let startIndex := (dealerIndex + 1) % players.length
  dealFrom startIndex deck.reverse 0 players

/-- Function `getMaxSelectable(players)`: `numDecks * 4`. -/
def getMaxSelectable (players : List PlayerState) : Nat :=
  (max 1 (ceilDiv players.length 5)) * 4

/-- Replace the hand of the player at index `i` (the in-place mutation of
    a found player's `hand` field). -/
def updateHandAt (ps : List PlayerState) (i : Nat) (newHand : List Card) : List PlayerState :=
  match ps[i]? with
  | some p => ps.set i { p with hand := newHand }
  | none => ps

/-- Append `cs` to the hand of the player at index `i`
    (the `loser.hand.push(...g.pileFaceDown)` mutation). -/
def pushAllAt (ps : List PlayerState) (i : Nat) (cs : List Card) : List PlayerState :=
  match ps[i]? with
  | some p => ps.set i { p with hand := p.hand ++ cs }
  | none => ps

/-- The conditional update of `hasNextPlayerPlayedAfterLiar` performed by
    the `game:play` handler: true exactly when an eligibility id is set
    and differs from the acting player's id. -/
def playedAfterFlag (elig : Option String) (actorId : String) : Bool :=
  match elig with
  | some pid => decide (pid ≠ actorId)
  | none => false

/-- The removal loop of the `game:play` handler: for each submitted card,
    look its index up in the (current) hand, `splice` one element out at
    that index — `-1`, i.e. the JavaScript last-element deletion, when the
    card is no longer present — and push the card onto the pile. -/
def removeLoop : List Card → List Card → List Card → List Card × List Card
  | [], hand, pile => (hand, pile)
  | c :: cs, hand, pile =>
    removeLoop cs (jsSplice1 hand (jsIndexOf hand c)) (pile ++ [c])

/-- The `game:play` handler.  `none` models every silent `return`:
    session not started, acting player not at the turn pointer, card
    count outside `[1, maxSelectable]`, or some submitted card absent
    from the hand of the (first) player with the acting id. -/
def gamePlay (g : GameState) (byId : String) (cards : List Card) (claimedRank : CardRank)
    (now : Nat) : Option GameState :=
  if !g.started then none else
  match g.players[g.currentTurnIndex]? with
  | none => none
  | some current =>
    if current.id ≠ byId then none else
    match jsFindIndex (fun p : PlayerState => p.id = byId) g.players with
    | none => none
    | some pIdx =>
      match g.players[pIdx]? with
      | none => none
      | some player =>
        let maxSelectable := getMaxSelectable g.players
        if cards.length < 1 ∨ cards.length > maxSelectable then none else
        if cards.any (fun c => jsIndexOf player.hand c = -1) then none else
        let hp := removeLoop cards player.hand g.pileFaceDown
        some { g with
          players := updateHandAt g.players pIdx hp.1
          pileFaceDown := hp.2
          lastPlay := some ⟨player.name, cards.length, claimedRank⟩
          bsWindowUntil := some (now + 5000)
          hasNextPlayerPlayedAfterLiar := playedAfterFlag g.peanutButterEligiblePlayerId player.id
          peanutButterEligiblePlayerId := some player.id
          currentTurnIndex := (g.currentTurnIndex + 1) % g.players.length
          currentRequiredRank := nextRank g.currentRequiredRank }

/-- The `game:bs` handler: guard the window, find the challenged player
    by NAME (`p.name === g.lastPlay.username`), inspect the last
    `count` pile cards with `startsWith`, find the caller by id, give the
    entire pile to the loser and clear the round fields. -/
def gameBs (g : GameState) (byId : String) (now : Nat) : Option GameState :=
  if !g.started then none else
  match g.lastPlay with
  | none => none
  | some lp =>
    match g.bsWindowUntil with
    | none => none
    | some dl =>
      if now > dl then none else
      match jsFindIndex (fun p : PlayerState => p.name = lp.username) g.players with
      | none => none
      | some lastIdx =>
        let lastPlayedCards := jsSliceNeg g.pileFaceDown lp.count
        let liar := lastPlayedCards.any (fun c => !bsStartsWith c lp.claimedRank)
        match jsFindIndex (fun p : PlayerState => p.id = byId) g.players with
        | none => none
        | some callerIdx =>
          let loserIdx := if liar then lastIdx else callerIdx
          some { g with
            players := pushAllAt g.players loserIdx g.pileFaceDown
            pileFaceDown := []
            bsWindowUntil := none
            lastPlay := none
            peanutButterEligiblePlayerId := none
            hasNextPlayerPlayedAfterLiar := false }

/-- The `game:peanutButter` handler: requires the eligibility id to be
    set and EQUAL to the invoker, the played-after flag, and a last play;
    the player found by the last play's NAME takes the whole pile. -/
def gamePeanutButter (g : GameState) (byId : String) : Option GameState :=
  if !g.started then none else
  match g.peanutButterEligiblePlayerId with
  | none => none
  | some pb =>
    if !g.hasNextPlayerPlayedAfterLiar then none else
    if pb ≠ byId then none else
    match g.lastPlay with
    | none => none
    | some lp =>
      match jsFindIndex (fun p : PlayerState => p.name = lp.username) g.players with
      | none => none
      | some lastIdx =>
        some { g with
          players := pushAllAt g.players lastIdx g.pileFaceDown
          pileFaceDown := []
          lastPlay := none
          peanutButterEligiblePlayerId := none
          hasNextPlayerPlayedAfterLiar := false }

/-- The `session:kick` handler: host-only and lobby-only; removal is a
    `filter` on the player id, and `hostId` is never touched. -/
def sessionKick (g : GameState) (playerId byId : String) : Option GameState :=
  if g.hostId ≠ byId ∨ g.started then none else
  some { g with players := g.players.filter (fun p => decide (p.id ≠ playerId)) }

/-- The post-deal turn pointer of the `game:start` handler: one seat
    after the dealer (JavaScript `findIndex` returning `-1` would give
    turn index `(-1 + 1) % n = 0`, modelled by the `none` branch). -/
def turnAfterDealer (dealt : List PlayerState) (dealerId : String) : Nat :=
  match jsFindIndex (fun p : PlayerState => p.id = dealerId) dealt with
  | some k => (k + 1) % dealt.length
  | none => 0

/-- The `game:start` handler: host-only, needs at least 2 players;
    clears all hands, deals (dealer = host), marks the session started,
    puts the turn pointer after the dealer (JavaScript `findIndex`
    returning `-1` would yield turn index `0`) and resets the round
    fields. -/
def gameStart (g : GameState) (byId : String) (choice : Nat → Nat) : Option GameState :=
  if g.started then none else
  if !(decide (g.players.length ≥ 2)) ∨ g.hostId ≠ byId then none else
  let cleared := g.players.map (fun p => { p with hand := ([] : List Card) })
  let dealt := dealHands cleared g.hostId choice
  some { g with
    players := dealt
    started := true
    currentTurnIndex := turnAfterDealer dealt g.hostId
    currentRequiredRank := .A
    pileFaceDown := []
    lastPlay := none
    bsWindowUntil := none
    peanutButterEligiblePlayerId := none
    hasNextPlayerPlayedAfterLiar := false }

/-- The per-session body of the `disconnect` handler: find the departing
    player by socket id, `splice` them out, and if they were the host and
    players remain, promote the first remaining player (the turn pointer
    is NOT adjusted).  The handler always applies (an absent socket is a
    no-op), so it returns a plain state. -/
def handleDisconnect (g : GameState) (socketId : String) : GameState :=
  match jsFindIndex (fun p : PlayerState => p.socketId = socketId) g.players with
  | none => g
  | some idx =>
    match g.players[idx]? with
    | none => g
    | some removed =>
      let wasHost := removed.id = g.hostId
      let players1 := g.players.eraseIdx idx
      if wasHost then
        match players1 with
        | [] => { g with players := players1 }
        | p0 :: rest =>
          { g with players := { p0 with isHost := true } :: rest, hostId := p0.id }
      else { g with players := players1 }

/-- The hand of the player at index `i` (empty when out of range). -/
def handAt (ps : List PlayerState) (i : Nat) : List Card :=
  match ps[i]? with
  | some p => p.hand
  | none => []

/-- The total number of cards in a session: all hands plus the pile. -/
def totalCards (g : GameState) : Nat :=
  (g.players.map (fun p => p.hand.length)).sum + g.pileFaceDown.length

/-- How many copies of card `c` the hands of a session hold in total. -/
def countHands (g : GameState) (c : Card) : Nat :=
  (g.players.map (fun p => p.hand.count c)).sum

/-- How many of `m` consecutive round-robin deals starting at seat
    `start % n` land on seat `j` (out of `n` seats). -/
def rrGain (n start j : Nat) : Nat → Nat
  | 0 => 0
  | m + 1 => (if start % n = j then 1 else 0) + rrGain n (start + 1) j m

/-- The id of the player at the turn pointer (empty string if the
    pointer is out of range). -/
def currentPlayerId (g : GameState) : String :=
  match g.players[g.currentTurnIndex]? with
  | some p => p.id
  | none => ""

/-- The hand of the player at the turn pointer. -/
def currentHand (g : GameState) : List Card :=
  match g.players[g.currentTurnIndex]? with
  | some p =>
    match jsFindIndex (fun q : PlayerState => q.id = p.id) g.players with
    | some i => handAt g.players i
    | none => []
  | none => []

/-- The sum of all hand sizes of a player list. -/
def sumHands (ps : List PlayerState) : Nat :=
  (ps.map (fun p => p.hand.length)).sum

/-- Total copies of card `c` anywhere in the session (hands plus pile). -/
def countAll (g : GameState) (c : Card) : Nat :=
  countHands g c + g.pileFaceDown.count c

/-- A two-player lobby: Alice (host) and Bob. -/
def lobby2 : GameState :=
  { id := "s", players := [⟨"a", "Alice", "sa", [], true⟩, ⟨"b", "Bob", "sb", [], false⟩],
    hostId := "a", started := false, currentTurnIndex := 0, currentRequiredRank := .A,
    pileFaceDown := [], lastPlay := none, bsWindowUntil := none,
    peanutButterEligiblePlayerId := none, hasNextPlayerPlayedAfterLiar := false }

/-- The two-player session right after `game:start` (deterministic draws
    `choice i = 0`). -/
def g2s : GameState :=
  match gameStart lobby2 "a" (fun _ => 0) with
  | some g => g
  | none => lobby2

/-- A three-player lobby: Alice (host), Bob and Carol. -/
def lobby3 : GameState :=
  { id := "s3", players := [⟨"a", "Alice", "sa", [], true⟩, ⟨"b", "Bob", "sb", [], false⟩,
      ⟨"c", "Carol", "sc", [], false⟩],
    hostId := "a", started := false, currentTurnIndex := 0, currentRequiredRank := .A,
    pileFaceDown := [], lastPlay := none, bsWindowUntil := none,
    peanutButterEligiblePlayerId := none, hasNextPlayerPlayedAfterLiar := false }

/-- The three-player session right after `game:start`. -/
def g3s : GameState :=
  match gameStart lobby3 "a" (fun _ => 0) with
  | some g => g
  | none => lobby3

/-- The three-player lobby after the host kicks themselves. -/
def c10g : GameState :=
  match sessionKick lobby3 "a" "a" with
  | some g => g
  | none => lobby3

/-- An in-progress two-player session where Alice holds the 5 of spades
    and Bob the king of spades, Alice to act. -/
def c1g0 : GameState :=
  { id := "s", players := [⟨"a", "Alice", "sa", [⟨.r5, .S⟩], true⟩,
      ⟨"b", "Bob", "sb", [⟨.K, .S⟩], false⟩],
    hostId := "a", started := true, currentTurnIndex := 0, currentRequiredRank := .r5,
    pileFaceDown := [], lastPlay := none, bsWindowUntil := none,
    peanutButterEligiblePlayerId := none, hasNextPlayerPlayedAfterLiar := false }

/-- `c1g0` after Alice plays her 5 of spades claiming rank 5. -/
def c1g1 : GameState :=
  match gamePlay c1g0 "a" [⟨.r5, .S⟩] .r5 0 with
  | some g => g
  | none => c1g0

/-- `c1g1` after Bob then plays his king of spades. -/
def c1g2 : GameState :=
  match gamePlay c1g1 "b" [⟨.K, .S⟩] .r6 0 with
  | some g => g
  | none => c1g1

/-- An in-progress session where Alice to act holds the ace of spades and
    the king of hearts: the input on which a duplicated-entry play
    corrupts the card pool. -/
def c2g : GameState :=
  { id := "s", players := [⟨"a", "Alice", "sa", [⟨.A, .S⟩, ⟨.K, .H⟩], true⟩,
      ⟨"b", "Bob", "sb", [⟨.r2, .C⟩], false⟩],
    hostId := "a", started := true, currentTurnIndex := 0, currentRequiredRank := .A,
    pileFaceDown := [], lastPlay := none, bsWindowUntil := none,
    peanutButterEligiblePlayerId := none, hasNextPlayerPlayedAfterLiar := false }

/-- Play the first `k` cards of the acting player's hand (claiming the
    required rank); identity if the play is rejected.  Used to drive the
    dealt session `g2s` to a one-card hand through ordinary plays. -/
def playTake (g : GameState) (k : Nat) : GameState :=
  match gamePlay g (currentPlayerId g) ((currentHand g).take k) g.currentRequiredRank 0 with
  | some g2 => g2
  | none => g

/-- A session reached from `g2s` by ordinary alternating plays that leave
    Alice holding exactly one card, Alice to act. -/
def gPre : GameState := [1, 4, 1, 4, 1, 4, 1, 4, 1, 4, 1, 4, 1, 1, 1].foldl playTake g2s

/-- Alice's one remaining card, submitted twice in a single play. -/
def c3cards : List Card :=
  match currentHand gPre with
  | c :: _ => [c, c]
  | [] => []

/-- `gPre` after Alice submits her last card twice. -/
def gBad : GameState :=
  match gamePlay gPre (currentPlayerId gPre) c3cards .A 0 with
  | some g => g
  | none => gPre

/-- An in-progress session whose counter-challenge eligibility currently
    belongs to Bob (Bob played after Alice), with the pile still out. -/
def c6g : GameState :=
  { id := "s", players := [⟨"a", "Alice", "sa", [], true⟩, ⟨"b", "Bob", "sb", [], false⟩],
    hostId := "a", started := true, currentTurnIndex := 0, currentRequiredRank := .r7,
    pileFaceDown := [⟨.r5, .S⟩, ⟨.K, .S⟩], lastPlay := some ⟨"Bob", 1, .r6⟩,
    bsWindowUntil := none, peanutButterEligiblePlayerId := some "b",
    hasNextPlayerPlayedAfterLiar := true }

/-- `c6g` after Bob's successful counter-challenge invocation. -/
def c6g2 : GameState :=
  match gamePeanutButter c6g "b" with
  | some g => g
  | none => c6g

/-- An in-progress session with an open challenge window against Alice's
    play of two cards claimed as 5s (one of them actually a 2). -/
def c7g : GameState :=
  { id := "s", players := [⟨"a", "Alice", "sa", [], true⟩, ⟨"b", "Bob", "sb", [], false⟩],
    hostId := "a", started := true, currentTurnIndex := 1, currentRequiredRank := .r2,
    pileFaceDown := [⟨.r5, .S⟩, ⟨.r2, .H⟩], lastPlay := some ⟨"Alice", 2, .r5⟩,
    bsWindowUntil := some 5000, peanutButterEligiblePlayerId := some "a",
    hasNextPlayerPlayedAfterLiar := false }

/-- `c7g` after Bob's in-window challenge settles the play. -/
def c7g2 : GameState :=
  match gameBs c7g "b" 0 with
  | some g => g
  | none => c7g

/-- A session holding two players who share the display name "X"
    (ids `a1` and `a2`), plus Carol; `a2` is to act. -/
def c9bs0 : GameState :=
  { id := "s", players := [⟨"a1", "X", "s1", [], false⟩, ⟨"a2", "X", "s2", [⟨.r2, .S⟩], false⟩,
      ⟨"c", "Carol", "s3", [], true⟩],
    hostId := "c", started := true, currentTurnIndex := 1, currentRequiredRank := .r5,
    pileFaceDown := [⟨.K, .H⟩], lastPlay := none, bsWindowUntil := none,
    peanutButterEligiblePlayerId := none, hasNextPlayerPlayedAfterLiar := false }

/-- `c9bs0` after player `a2` plays the 2 of spades claiming rank 5. -/
def c9bs1 : GameState :=
  match gamePlay c9bs0 "a2" [⟨.r2, .S⟩] .r5 0 with
  | some g => g
  | none => c9bs0

/-- `c9bs1` after Carol's challenge settles against the lying play. -/
def c9bs2 : GameState :=
  match gameBs c9bs1 "c" 0 with
  | some g => g
  | none => c9bs1

/-- A session with same-named players `q1`/`q2` ("X") and Bob, where
    `q2` is to act and counter-challenge eligibility belongs to Bob. -/
def c9pb0 : GameState :=
  { id := "s", players := [⟨"q1", "X", "t1", [], false⟩, ⟨"q2", "X", "t2", [⟨.r4, .S⟩], false⟩,
      ⟨"b", "Bob", "tb", [], true⟩],
    hostId := "b", started := true, currentTurnIndex := 1, currentRequiredRank := .r4,
    pileFaceDown := [⟨.K, .H⟩], lastPlay := some ⟨"Bob", 1, .r3⟩, bsWindowUntil := none,
    peanutButterEligiblePlayerId := some "b", hasNextPlayerPlayedAfterLiar := false }

/-- `c9pb0` after player `q2` plays the 4 of spades. -/
def c9pb1 : GameState :=
  match gamePlay c9pb0 "q2" [⟨.r4, .S⟩] .r4 0 with
  | some g => g
  | none => c9pb0

/-- `c9pb1` after `q2` invokes the counter-challenge. -/
def c9pb2 : GameState :=
  match gamePeanutButter c9pb1 "q2" with
  | some g => g
  | none => c9pb1

/-- Total copies of card `c` across the hands of a player list. -/
def countH (ps : List PlayerState) (c : Card) : Nat :=
  (ps.map (fun p => p.hand.count c)).sum

/-- The `startsWith` test of the `game:bs` handler recognises exactly the
    cards whose true rank is the claimed rank (no rank string is a proper
    prefix of another card string). -/
theorem bsStartsWith_eq : ∀ (c : Card) (r : CardRank), bsStartsWith c r = decide (c.rank = r) := by
  decide

theorem jsIndexOf_of_not_mem {α : Type} [DecidableEq α] {l : List α} {c : α} (h : c ∉ l) :
    jsIndexOf l c = -1 := by
  induction l with
  | nil => rfl
  | cons a t ih =>
    simp only [List.mem_cons, not_or] at h
    have ha : ¬(a = c) := fun e => h.1 e.symm
    simp [jsIndexOf, ha, ih h.2]

theorem jsIndexOf_of_mem {α : Type} [DecidableEq α] {l : List α} {c : α} (h : c ∈ l) :
    ∃ k : Nat, jsIndexOf l c = (k : Int) ∧ k < l.length := by
  induction l with
  | nil => simp at h
  | cons a t ih =>
    by_cases ha : a = c
    · exact ⟨0, by simp [jsIndexOf, ha], by simp⟩
    · have hc : c ∈ t := by
        rcases List.mem_cons.mp h with h1 | h1
        · exact absurd h1.symm ha
        · exact h1
      obtain ⟨k, hk, hlt⟩ := ih hc
      have hne : ((k : Int)) ≠ -1 := by omega
      refine ⟨k + 1, ?_, by simpa using Nat.succ_lt_succ hlt⟩
      simp [jsIndexOf, ha, hk, hne]

theorem jsIndexOf_eq_neg_one_iff {α : Type} [DecidableEq α] (l : List α) (c : α) :
    jsIndexOf l c = -1 ↔ c ∉ l := by
  constructor
  · intro h hmem
    obtain ⟨k, hk, _⟩ := jsIndexOf_of_mem hmem
    rw [hk] at h
    omega
  · exact jsIndexOf_of_not_mem

/-- Removing via `splice(indexOf(c), 1)` when `c` is present is exactly
    erasure of the first occurrence of `c`. -/
theorem jsSplice1_jsIndexOf {α : Type} [DecidableEq α] {l : List α} {c : α} (h : c ∈ l) :
    jsSplice1 l (jsIndexOf l c) = l.erase c := by
  induction l with
  | nil => simp at h
  | cons a t ih =>
    by_cases ha : a = c
    · subst ha
      simp only [jsIndexOf, if_pos rfl, jsSplice1, List.erase_cons_head]
      norm_num
    · have hc : c ∈ t := by
        rcases List.mem_cons.mp h with h1 | h1
        · exact absurd h1.symm ha
        · exact h1
      obtain ⟨k, hk, hlt⟩ := jsIndexOf_of_mem hc
      have hne : ((k : Int)) ≠ -1 := by omega
      have step : jsIndexOf (a :: t) c = ((k : Int)) + 1 := by
        simp [jsIndexOf, ha, hk, hne]
      have hsplice : jsSplice1 (a :: t) ((k : Int) + 1) = a :: jsSplice1 t ((k : Int)) := by
        simp only [jsSplice1]
        have h1 : ¬((k : Int) + 1 < 0) := by omega
        have h2 : ¬((k : Int) < 0) := by omega
        simp only [if_neg h1, if_neg h2]
        have e1 : ((k : Int) + 1).toNat = k + 1 := by omega
        have e2 : ((k : Int)).toNat = k := by omega
        rw [e1, e2]
        have m1 : min (k + 1) (a :: t).length = k + 1 := by
          simp only [List.length_cons]
          omega
        have m2 : min k t.length = k := by omega
        rw [m1, m2]
        simp [List.take_succ_cons, List.drop_succ_cons]
      rw [step, hsplice, ← hk, ih hc, List.erase_cons_tail (by simpa using ha)]

theorem jsFindIndex_some {α : Type} {p : α → Prop} [DecidablePred p] {l : List α} {i : Nat}
    (h : jsFindIndex p l = some i) : ∃ x, l[i]? = some x ∧ p x := by
  induction l generalizing i with
  | nil => simp [jsFindIndex] at h
  | cons a t ih =>
    by_cases ha : p a
    · simp only [jsFindIndex, if_pos ha] at h
      cases h
      exact ⟨a, by simp, ha⟩
    · simp only [jsFindIndex, if_neg ha, Option.map_eq_some'] at h
      obtain ⟨j, hj, hji⟩ := h
      obtain ⟨x, hx, hpx⟩ := ih hj
      exact ⟨x, by simpa [← hji] using hx, hpx⟩

theorem jsFindIndex_lt_length {α : Type} {p : α → Prop} [DecidablePred p] {l : List α} {i : Nat}
    (h : jsFindIndex p l = some i) : i < l.length := by
  obtain ⟨x, hx, _⟩ := jsFindIndex_some h
  obtain ⟨hlt, _⟩ := List.getElem?_eq_some.mp hx
  exact hlt

theorem jsFindIndex_isSome_iff {α : Type} {p : α → Prop} [DecidablePred p] {l : List α} :
    (jsFindIndex p l).isSome = true ↔ ∃ x ∈ l, p x := by
  induction l with
  | nil => simp [jsFindIndex]
  | cons a t ih =>
    by_cases ha : p a
    · simp [jsFindIndex, ha]
    · simp only [jsFindIndex, if_neg ha, Option.isSome_map']
      rw [ih]
      constructor
      · rintro ⟨x, hx, hpx⟩
        exact ⟨x, List.mem_cons_of_mem a hx, hpx⟩
      · rintro ⟨x, hx, hpx⟩
        rcases List.mem_cons.mp hx with h1 | h1
        · exact absurd (h1 ▸ hpx) ha
        · exact ⟨x, h1, hpx⟩

/-- Replacing one element changes a mapped sum by the difference of the
    images (stated additively to avoid natural subtraction). -/
theorem sum_map_set {α : Type} (f : α → Nat) (l : List α) (i : Nat) (x a : α)
    (h : l[i]? = some a) :
    ((l.set i x).map f).sum + f a = (l.map f).sum + f x := by
  induction l generalizing i with
  | nil => simp at h
  | cons b t ih =>
    cases i with
    | zero =>
      simp only [List.getElem?_cons_zero, Option.some_inj] at h
      subst h
      simp only [List.set_cons_zero, List.map_cons, List.sum_cons]
      omega
    | succ j =>
      simp only [List.getElem?_cons_succ] at h
      have := ih j h
      simp only [List.set_cons_succ, List.map_cons, List.sum_cons]
      omega

theorem handAt_set_self {ps : List PlayerState} {i : Nat} {q : PlayerState}
    (h : i < ps.length) : handAt (ps.set i q) i = q.hand := by
  simp [handAt, List.getElem?_set_eq_of_lt q h]

theorem handAt_set_other {ps : List PlayerState} {i k : Nat} {q : PlayerState}
    (h : k ≠ i) : handAt (ps.set i q) k = handAt ps k := by
  simp [handAt, List.getElem?_set_ne (fun e => h e.symm)]

theorem pushAllAt_length (ps : List PlayerState) (i : Nat) (cs : List Card) :
    (pushAllAt ps i cs).length = ps.length := by
  unfold pushAllAt
  split <;> simp

theorem pushAllAt_handAt_self {ps : List PlayerState} {i : Nat} {cs : List Card}
    (h : i < ps.length) : handAt (pushAllAt ps i cs) i = handAt ps i ++ cs := by
  unfold pushAllAt
  obtain ⟨x, hx⟩ : ∃ x, ps[i]? = some x := ⟨ps[i], List.getElem?_eq_getElem h⟩
  rw [hx]
  simp only [handAt, hx]
  rw [show ((ps.set i { x with hand := x.hand ++ cs })[i]?) = some { x with hand := x.hand ++ cs }
    from List.getElem?_set_eq_of_lt _ h]

theorem pushAllAt_handAt_other {ps : List PlayerState} {i k : Nat} {cs : List Card}
    (h : k ≠ i) : handAt (pushAllAt ps i cs) k = handAt ps k := by
  unfold pushAllAt
  split
  · exact handAt_set_other h
  · rfl

theorem sumHands_pushAllAt {ps : List PlayerState} {i : Nat} {cs : List Card}
    (h : i < ps.length) : sumHands (pushAllAt ps i cs) = sumHands ps + cs.length := by
  unfold pushAllAt
  obtain ⟨x, hx⟩ : ∃ x, ps[i]? = some x := ⟨ps[i], List.getElem?_eq_getElem h⟩
  rw [hx]
  have := sum_map_set (fun p => p.hand.length) ps i { x with hand := x.hand ++ cs } x hx
  simp only [sumHands]
  simp only [List.length_append] at this
  omega

theorem countH_pushAllAt {ps : List PlayerState} {i : Nat} {cs : List Card} {c : Card}
    (h : i < ps.length) : countH (pushAllAt ps i cs) c = countH ps c + cs.count c := by
  unfold pushAllAt
  obtain ⟨x, hx⟩ : ∃ x, ps[i]? = some x := ⟨ps[i], List.getElem?_eq_getElem h⟩
  rw [hx]
  have := sum_map_set (fun p => p.hand.count c) ps i { x with hand := x.hand ++ cs } x hx
  simp only [countH]
  simp only [List.count_append] at this
  omega

theorem sumHands_updateHandAt {ps : List PlayerState} {i : Nat} {p : PlayerState}
    {h2 : List Card} (h : ps[i]? = some p) :
    sumHands (updateHandAt ps i h2) + p.hand.length = sumHands ps + h2.length := by
  unfold updateHandAt
  rw [h]
  exact sum_map_set (fun q => q.hand.length) ps i { p with hand := h2 } p h

theorem updateHandAt_length (ps : List PlayerState) (i : Nat) (h2 : List Card) :
    (updateHandAt ps i h2).length = ps.length := by
  unfold updateHandAt
  split <;> simp

/-- When the submitted cards, counted with multiplicity, all come from
    the hand, the removal loop removes exactly them and appends them to
    the pile. -/
theorem removeLoop_of_le {cards hand pile : List Card}
    (h : (cards : Multiset Card) ≤ (hand : Multiset Card)) :
    ((removeLoop cards hand pile).1 : Multiset Card)
        = (hand : Multiset Card) - (cards : Multiset Card) ∧
      (removeLoop cards hand pile).2 = pile ++ cards := by
  induction cards generalizing hand pile with
  | nil => simp [removeLoop]
  | cons c cs ih =>
    have hc : c ∈ hand := by
      have : c ∈ (hand : Multiset Card) := Multiset.mem_of_le h (by simp)
      simpa using this
    have hsub : (cs : Multiset Card) ≤ ((hand.erase c : List Card) : Multiset Card) := by
      rw [← Multiset.coe_erase]
      rw [Multiset.le_iff_count]
      intro x
      have hx := Multiset.le_iff_count.mp h x
      by_cases hxc : x = c
      · subst hxc
        rw [Multiset.count_erase_self]
        simp only [← Multiset.cons_coe, Multiset.count_cons_self] at hx
        omega
      · rw [Multiset.count_erase_of_ne hxc]
        simp only [← Multiset.cons_coe, Multiset.count_cons_of_ne hxc] at hx
        exact hx
    have hstep : removeLoop (c :: cs) hand pile
        = removeLoop cs (hand.erase c) (pile ++ [c]) := by
      rw [removeLoop, jsSplice1_jsIndexOf hc]
    obtain ⟨ih1, ih2⟩ := ih hsub
    constructor
    · rw [hstep, ih1, ← Multiset.coe_erase, ← Multiset.cons_coe, Multiset.sub_cons]
    · rw [hstep, ih2, List.append_assoc]
      rfl

theorem removeLoop_lengths_of_le {cards hand pile : List Card}
    (h : (cards : Multiset Card) ≤ (hand : Multiset Card)) :
    (removeLoop cards hand pile).1.length + cards.length = hand.length ∧
      (removeLoop cards hand pile).2.length = pile.length + cards.length := by
  obtain ⟨h1, h2⟩ := @removeLoop_of_le cards hand pile h
  have hle : cards.length ≤ hand.length := by
    have := Multiset.card_le_card h
    simpa using this
  constructor
  · have := congrArg Multiset.card h1
    rw [Multiset.coe_card, Multiset.card_sub h] at this
    simp only [Multiset.coe_card] at this
    omega
  · rw [h2]
    simp

theorem pushCardAt_eq_pushAllAt (ps : List PlayerState) (r : Nat) (c : Card) :
    pushCardAt ps r c = pushAllAt ps r [c] := rfl

theorem dealFrom_length (deck : List Card) :
    ∀ (start i : Nat) (ps : List PlayerState), (dealFrom start deck i ps).length = ps.length := by
  induction deck with
  | nil => intro start i ps; rfl
  | cons c rest ih =>
    intro start i ps
    rw [dealFrom, ih, pushCardAt_eq_pushAllAt, pushAllAt_length]

theorem sumHands_dealFrom (deck : List Card) :
    ∀ (start i : Nat) (ps : List PlayerState), 0 < ps.length →
      sumHands (dealFrom start deck i ps) = sumHands ps + deck.length := by
  induction deck with
  | nil => intro start i ps _; simp [dealFrom]
  | cons c rest ih =>
    intro start i ps hps
    rw [dealFrom, pushCardAt_eq_pushAllAt,
      ih _ _ _ (by rw [pushAllAt_length]; exact hps),
      sumHands_pushAllAt (Nat.mod_lt _ hps)]
    simp only [List.length_cons, List.length_singleton, List.length_nil]
    omega

theorem countH_dealFrom (deck : List Card) :
    ∀ (start i : Nat) (ps : List PlayerState) (c : Card), 0 < ps.length →
      countH (dealFrom start deck i ps) c = countH ps c + deck.count c := by
  induction deck with
  | nil => intro start i ps c _; simp [dealFrom]
  | cons d rest ih =>
    intro start i ps c hps
    rw [dealFrom, pushCardAt_eq_pushAllAt,
      ih _ _ _ _ (by rw [pushAllAt_length]; exact hps),
      countH_pushAllAt (Nat.mod_lt _ hps)]
    simp only [List.count_cons, List.count_nil]
    omega

theorem handAt_pushCardAt_length {ps : List PlayerState} {r : Nat} {c : Card} (j : Nat)
    (h : r < ps.length) :
    (handAt (pushCardAt ps r c) j).length
      = (handAt ps j).length + (if r = j then 1 else 0) := by
  rw [pushCardAt_eq_pushAllAt]
  by_cases hrj : r = j
  · subst hrj
    rw [pushAllAt_handAt_self h]
    simp
  · rw [pushAllAt_handAt_other (fun e => hrj e.symm), if_neg hrj]
    omega

theorem pushCardAt_length (ps : List PlayerState) (r : Nat) (c : Card) :
    (pushCardAt ps r c).length = ps.length := by
  rw [pushCardAt_eq_pushAllAt, pushAllAt_length]

theorem handAt_dealFrom_length (deck : List Card) :
    ∀ (start i : Nat) (ps : List PlayerState) (j : Nat), 0 < ps.length →
      (handAt (dealFrom start deck i ps) j).length
        = (handAt ps j).length + rrGain ps.length (start + i) j deck.length := by
  induction deck with
  | nil => intro start i ps j _; simp [dealFrom, rrGain]
  | cons c rest ih =>
    intro start i ps j hps
    have hlen : (pushCardAt ps ((start + i) % ps.length) c).length = ps.length :=
      pushCardAt_length _ _ _
    have hps2 : 0 < (pushCardAt ps ((start + i) % ps.length) c).length := by
      rw [hlen]
      exact hps
    rw [dealFrom, ih _ _ _ _ hps2, hlen, handAt_pushCardAt_length j (Nat.mod_lt _ hps)]
    simp only [List.length_cons]
    rw [show rrGain ps.length (start + i) j (rest.length + 1)
        = (if (start + i) % ps.length = j then 1 else 0)
          + rrGain ps.length (start + i + 1) j rest.length from rfl]
    have e : start + (i + 1) = start + i + 1 := rfl
    rw [e]
    omega

theorem count_set_add {α : Type} [DecidableEq α] (l : List α) (i : Nat) (a b x : α)
    (h : l[i]? = some a) :
    (l.set i b).count x + (if a = x then 1 else 0)
      = l.count x + (if b = x then 1 else 0) := by
  induction l generalizing i with
  | nil => simp at h
  | cons d t ih =>
    cases i with
    | zero =>
      simp only [List.getElem?_cons_zero, Option.some_inj] at h
      subst h
      simp only [List.set_cons_zero, List.count_cons]
      by_cases h1 : d = x <;> by_cases h2 : b = x <;>
        simp [h1, h2]
    | succ j =>
      simp only [List.getElem?_cons_succ] at h
      have := ih j h
      simp only [List.set_cons_succ, List.count_cons]
      by_cases h1 : d = x <;> simp [h1] <;> omega

theorem count_swapAt (l : List Card) (i j : Nat) (x : Card) :
    (swapAt l i j).count x = l.count x := by
  unfold swapAt
  split
  · rename_i a b hi hj
    have hjlt : j < l.length := (List.getElem?_eq_some.mp hj).1
    have hj2 : (l.set i b)[j]? = some b := by
      by_cases hij : j = i
      · subst hij
        exact List.getElem?_set_eq_of_lt b hjlt
      · rw [List.getElem?_set_ne (fun e => hij e.symm)]
        exact hj
    have c1 := count_set_add l i a b x hi
    have c2 := count_set_add (l.set i b) j b a x hj2
    omega
  · rfl

theorem length_swapAt (l : List Card) (i j : Nat) :
    (swapAt l i j).length = l.length := by
  unfold swapAt
  split <;> simp

theorem count_shuffleFrom (choice : Nat → Nat) :
    ∀ (i : Nat) (deck : List Card) (x : Card),
      (shuffleFrom choice i deck).count x = deck.count x := by
  intro i
  induction i with
  | zero => intro deck x; rfl
  | succ k ih =>
    intro deck x
    rw [shuffleFrom, ih, count_swapAt]

theorem length_shuffleFrom (choice : Nat → Nat) :
    ∀ (i : Nat) (deck : List Card), (shuffleFrom choice i deck).length = deck.length := by
  intro i
  induction i with
  | zero => intro deck; rfl
  | succ k ih =>
    intro deck
    rw [shuffleFrom, ih, length_swapAt]

theorem oneDeck_count : ∀ x : Card, oneDeck.count x = 1 := by decide

theorem oneDeck_length : oneDeck.length = 52 := by decide

theorem baseDeck_count (nd : Nat) (x : Card) : (baseDeck nd).count x = nd := by
  induction nd with
  | zero => rfl
  | succ k ih =>
    unfold baseDeck at ih ⊢
    rw [List.range_succ, List.flatMap_append, List.count_append, ih]
    simp [oneDeck_count x]

theorem baseDeck_length (nd : Nat) : (baseDeck nd).length = 52 * nd := by
  induction nd with
  | zero => rfl
  | succ k ih =>
    unfold baseDeck at ih ⊢
    rw [List.range_succ, List.flatMap_append, List.length_append, ih]
    simp [oneDeck_length, Nat.mul_succ]

theorem createDeck_count (nd : Nat) (choice : Nat → Nat) (x : Card) :
    (createDeck nd choice).count x = nd := by
  unfold createDeck
  rw [count_shuffleFrom, baseDeck_count]

theorem createDeck_length (nd : Nat) (choice : Nat → Nat) :
    (createDeck nd choice).length = 52 * nd := by
  unfold createDeck
  rw [length_shuffleFrom, baseDeck_length]

/-- Characterisation of an accepted play: the handler succeeds exactly
    under its guard conditions, and the successor state is the recorded
    mutation. -/
theorem gamePlay_eq_some_iff {g : GameState} {byId : String} {cards : List Card}
    {r : CardRank} {now : Nat} {g' : GameState} :
    gamePlay g byId cards r now = some g' ↔
      ∃ current pIdx player,
        g.started = true ∧
        g.players[g.currentTurnIndex]? = some current ∧
        current.id = byId ∧
        jsFindIndex (fun p : PlayerState => p.id = byId) g.players = some pIdx ∧
        g.players[pIdx]? = some player ∧
        1 ≤ cards.length ∧ cards.length ≤ getMaxSelectable g.players ∧
        (∀ c ∈ cards, c ∈ player.hand) ∧
        g' = { g with
          players := updateHandAt g.players pIdx (removeLoop cards player.hand g.pileFaceDown).1
          pileFaceDown := (removeLoop cards player.hand g.pileFaceDown).2
          lastPlay := some ⟨player.name, cards.length, r⟩
          bsWindowUntil := some (now + 5000)
          hasNextPlayerPlayedAfterLiar := playedAfterFlag g.peanutButterEligiblePlayerId player.id
          peanutButterEligiblePlayerId := some player.id
          currentTurnIndex := (g.currentTurnIndex + 1) % g.players.length
          currentRequiredRank := nextRank g.currentRequiredRank } := by
  constructor
  · intro h
    unfold gamePlay at h
    split at h
    · cases h
    · rename_i hs
      have hst : g.started = true := by
        revert hs
        cases g.started <;> simp
      split at h
      · cases h
      · rename_i current hcur
        split at h
        · cases h
        · rename_i hid
          rw [Decidable.not_not] at hid
          split at h
          · cases h
          · rename_i pIdx hfind
            split at h
            · cases h
            · rename_i player hplayer
              dsimp only [] at h
              by_cases hlen : cards.length < 1 ∨ cards.length > getMaxSelectable g.players
              · rw [if_pos hlen] at h
                cases h
              · rw [if_neg hlen] at h
                by_cases hanyb : (cards.any fun c => decide (jsIndexOf player.hand c = -1)) = true
                · rw [if_pos hanyb] at h
                  cases h
                · rw [if_neg hanyb] at h
                  have hown : ∀ c ∈ cards, c ∈ player.hand := by
                    intro c hc
                    by_contra hmem
                    exact hanyb (List.any_eq_true.mpr
                      ⟨c, hc, by
                        rw [decide_eq_true_eq, jsIndexOf_eq_neg_one_iff]
                        exact hmem⟩)
                  refine ⟨current, pIdx, player, hst, hcur, hid, hfind, hplayer,
                    by omega, by omega, hown, (Option.some_inj.mp h).symm⟩
  · rintro ⟨current, pIdx, player, hst, hcur, hid, hfind, hplayer, hlen1, hlen2, hown, hres⟩
    have hany : (cards.any fun c => decide (jsIndexOf player.hand c = -1)) = false := by
      rw [List.any_eq_false]
      intro c hc
      rw [decide_eq_true_eq, jsIndexOf_eq_neg_one_iff]
      exact fun hnot => hnot (hown c hc)
    have hnlen : ¬(cards.length < 1 ∨ cards.length > getMaxSelectable g.players) := by
      omega
    unfold gamePlay
    rw [hst]
    simp only [Bool.not_true, Bool.false_eq_true, if_false]
    rw [hcur]
    dsimp only []
    rw [if_neg (show ¬(current.id ≠ byId) by simp [hid])]
    rw [hfind]
    dsimp only []
    rw [hplayer]
    dsimp only []
    rw [if_neg hnlen, hany]
    simp only [Bool.false_eq_true, if_false]
    rw [hres, hst]

/-- Characterisation of a settled challenge: guards, the winner choice by
    the `startsWith` inspection of the pile tail, and the cleared round
    fields. -/
theorem gameBs_eq_some_iff {g : GameState} {byId : String} {now : Nat} {g' : GameState} :
    gameBs g byId now = some g' ↔
      ∃ lp dl lastIdx callerIdx,
        g.started = true ∧
        g.lastPlay = some lp ∧
        g.bsWindowUntil = some dl ∧
        now ≤ dl ∧
        jsFindIndex (fun p : PlayerState => p.name = lp.username) g.players = some lastIdx ∧
        jsFindIndex (fun p : PlayerState => p.id = byId) g.players = some callerIdx ∧
        g' = { g with
          players := pushAllAt g.players
            (if (jsSliceNeg g.pileFaceDown lp.count).any
                (fun c => !bsStartsWith c lp.claimedRank) then lastIdx else callerIdx)
            g.pileFaceDown
          pileFaceDown := []
          bsWindowUntil := none
          lastPlay := none
          peanutButterEligiblePlayerId := none
          hasNextPlayerPlayedAfterLiar := false } := by
  constructor
  · intro h
    unfold gameBs at h
    split at h
    · cases h
    · rename_i hs
      have hst : g.started = true := by
        revert hs
        cases g.started <;> simp
      split at h
      · cases h
      · rename_i lp hlp
        split at h
        · cases h
        · rename_i dl hdl
          split at h
          · cases h
          · rename_i hnow
            rw [Nat.not_lt] at hnow
            split at h
            · cases h
            · rename_i lastIdx hlast
              dsimp only [] at h
              split at h
              · cases h
              · rename_i callerIdx hcaller
                exact ⟨lp, dl, lastIdx, callerIdx, hst, hlp, hdl, hnow, hlast, hcaller,
                  (Option.some_inj.mp h).symm⟩
  · rintro ⟨lp, dl, lastIdx, callerIdx, hst, hlp, hdl, hnow, hlast, hcaller, hres⟩
    unfold gameBs
    rw [hst]
    simp only [Bool.not_true, Bool.false_eq_true, if_false]
    rw [hlp]
    dsimp only []
    rw [hdl]
    dsimp only []
    rw [if_neg (Nat.not_lt.mpr hnow)]
    rw [hlast]
    dsimp only []
    rw [hcaller]
    dsimp only []
    rw [hres, hst]

/-- Characterisation of a successful counter-challenge invocation. -/
theorem gamePeanutButter_eq_some_iff {g : GameState} {byId : String} {g' : GameState} :
    gamePeanutButter g byId = some g' ↔
      ∃ lp lastIdx,
        g.started = true ∧
        g.peanutButterEligiblePlayerId = some byId ∧
        g.hasNextPlayerPlayedAfterLiar = true ∧
        g.lastPlay = some lp ∧
        jsFindIndex (fun p : PlayerState => p.name = lp.username) g.players = some lastIdx ∧
        g' = { g with
          players := pushAllAt g.players lastIdx g.pileFaceDown
          pileFaceDown := []
          lastPlay := none
          peanutButterEligiblePlayerId := none
          hasNextPlayerPlayedAfterLiar := false } := by
  constructor
  · intro h
    unfold gamePeanutButter at h
    split at h
    · cases h
    · rename_i hs
      have hst : g.started = true := by
        revert hs
        cases g.started <;> simp
      split at h
      · cases h
      · rename_i pb hpb
        split at h
        · cases h
        · rename_i hflag
          have hflag2 : g.hasNextPlayerPlayedAfterLiar = true := by
            revert hflag
            cases g.hasNextPlayerPlayedAfterLiar <;> simp
          split at h
          · cases h
          · rename_i hpbid
            rw [Decidable.not_not] at hpbid
            subst hpbid
            split at h
            · cases h
            · rename_i lp hlp
              split at h
              · cases h
              · rename_i lastIdx hlast
                exact ⟨lp, lastIdx, hst, hpb, hflag2, hlp, hlast,
                  (Option.some_inj.mp h).symm⟩
  · rintro ⟨lp, lastIdx, hst, hpb, hflag, hlp, hlast, hres⟩
    unfold gamePeanutButter
    rw [hst]
    simp only [Bool.not_true, Bool.false_eq_true, if_false]
    rw [hpb]
    dsimp only []
    rw [hflag]
    simp only [Bool.not_true, Bool.false_eq_true, if_false]
    rw [if_neg (show ¬(byId ≠ byId) by simp)]
    rw [hlp]
    dsimp only []
    rw [hlast]
    dsimp only []
    rw [hres, hst]

/-- Characterisation of a successful `game:start`. -/
theorem gameStart_eq_some_iff {g : GameState} {byId : String} {choice : Nat → Nat}
    {g' : GameState} :
    gameStart g byId choice = some g' ↔
      g.started = false ∧ 2 ≤ g.players.length ∧ g.hostId = byId ∧
      g' = { g with
        players := dealHands (g.players.map (fun p => { p with hand := ([] : List Card) }))
          g.hostId choice
        started := true
        currentTurnIndex := turnAfterDealer
          (dealHands (g.players.map (fun p => { p with hand := ([] : List Card) }))
            g.hostId choice) g.hostId
        currentRequiredRank := .A
        pileFaceDown := []
        lastPlay := none
        bsWindowUntil := none
        peanutButterEligiblePlayerId := none
        hasNextPlayerPlayedAfterLiar := false } := by
  unfold gameStart
  split
  · rename_i hs
    constructor
    · intro h
      cases h
    · rintro ⟨h1, _⟩
      rw [h1] at hs
      cases hs
  · rename_i hs
    have hs2 : g.started = false := by
      revert hs
      cases g.started <;> simp
    split
    · rename_i hcond
      constructor
      · intro h
        cases h
      · rintro ⟨_, h2, h3, _⟩
        rcases hcond with hc | hc
        · rw [Bool.not_eq_true', decide_eq_false_iff_not] at hc
          exact (hc h2).elim
        · exact (hc h3).elim
    · rename_i hcond
      rw [not_or] at hcond
      obtain ⟨h1, h2⟩ := hcond
      have h1b : 2 ≤ g.players.length := by simpa using h1
      have h2b : g.hostId = byId := Decidable.not_not.mp h2
      dsimp only []
      constructor
      · intro h
        exact ⟨hs2, h1b, h2b, (Option.some_inj.mp h).symm⟩
      · rintro ⟨_, _, _, hres⟩
        rw [hres]

/-- Characterisation of a successful `session:kick`. -/
theorem sessionKick_eq_some_iff {g : GameState} {playerId byId : String} {g' : GameState} :
    sessionKick g playerId byId = some g' ↔
      g.hostId = byId ∧ g.started = false ∧
      g' = { g with players := g.players.filter (fun p => decide (p.id ≠ playerId)) } := by
  unfold sessionKick
  split
  · rename_i hcond
    constructor
    · intro h
      cases h
    · rintro ⟨h1, h2, _⟩
      rcases hcond with hc | hc
      · exact (hc h1).elim
      · rw [h2] at hc
        cases hc
  · rename_i hcond
    rw [not_or] at hcond
    obtain ⟨h1, h2⟩ := hcond
    rw [Decidable.not_not] at h1
    have h2b : g.started = false := by
      revert h2
      cases g.started <;> simp
    constructor
    · intro h
      exact ⟨h1, h2b, (Option.some_inj.mp h).symm⟩
    · rintro ⟨_, _, hres⟩
      rw [hres]

theorem sum_map_eraseIdx {α : Type} (f : α → Nat) (l : List α) (i : Nat) (a : α)
    (h : l[i]? = some a) :
    ((l.eraseIdx i).map f).sum + f a = (l.map f).sum := by
  induction l generalizing i with
  | nil => simp at h
  | cons b t ih =>
    cases i with
    | zero =>
      simp only [List.getElem?_cons_zero, Option.some_inj] at h
      subst h
      simp only [List.eraseIdx_cons_zero, List.map_cons, List.sum_cons]
      omega
    | succ j =>
      simp only [List.getElem?_cons_succ] at h
      have := ih j h
      simp only [List.eraseIdx_cons_succ, List.map_cons, List.sum_cons]
      omega

/-- A disconnect never touches the pile. -/
theorem handleDisconnect_pile (g : GameState) (sid : String) :
    (handleDisconnect g sid).pileFaceDown = g.pileFaceDown := by
  unfold handleDisconnect
  split
  · rfl
  · split
    · rfl
    · dsimp only []
      split
      · split <;> rfl
      · rfl

/-- A disconnect of a present player removes exactly that player's hand
    from the total hand mass. -/
theorem handleDisconnect_sumHands {g : GameState} {sid : String} {idx : Nat}
    {removed : PlayerState}
    (hfind : jsFindIndex (fun p : PlayerState => p.socketId = sid) g.players = some idx)
    (hrem : g.players[idx]? = some removed) :
    sumHands (handleDisconnect g sid).players + removed.hand.length = sumHands g.players := by
  have base := sum_map_eraseIdx (fun p => p.hand.length) g.players idx removed hrem
  unfold handleDisconnect
  rw [hfind]
  dsimp only []
  rw [hrem]
  dsimp only []
  split
  · split
    · dsimp only []
      simpa [sumHands] using base
    · rename_i p0 rest heq
      dsimp only []
      have e : sumHands ({ p0 with isHost := true } :: rest) = sumHands (p0 :: rest) := by
        simp [sumHands]
      rw [e, ← heq]
      simpa [sumHands] using base
  · dsimp only []
    simpa [sumHands] using base

theorem jsFindIndex_found_pred {α : Type} {p : α → Prop} [DecidablePred p] {l : List α}
    {i : Nat} {x : α} (hf : jsFindIndex p l = some i) (hx : l[i]? = some x) : p x := by
  obtain ⟨y, hy, hpy⟩ := jsFindIndex_some hf
  rw [hx] at hy
  cases hy
  exact hpy

set_option maxRecDepth 200000 in
/-- C2: evidence of the play-handler card-identity bug.  At `c2g` the
    acting player holds exactly one ace of spades and one king of hearts;
    submitting the ace TWICE is accepted (each entry is checked against
    the full hand independently), and the second removal round runs
    `splice(indexOf = -1, 1)`, deleting the LAST card of the hand.  The
    session afterwards holds two aces of spades (duplicated) and zero
    kings of hearts (destroyed). -/
theorem c2_dup_play_corrupts_cards :
    countAll c2g ⟨.A, .S⟩ = 1 ∧ countAll c2g ⟨.K, .H⟩ = 1 ∧
    (gamePlay c2g "a" [⟨.A, .S⟩, ⟨.A, .S⟩] .A 0).map
      (fun g => (countAll g ⟨.A, .S⟩, countAll g ⟨.K, .H⟩)) = some (2, 0) := by
  decide

set_option maxRecDepth 200000 in
/-- C9: in both settlement paths the receiving "player of the last play"
    is located by display name (first name match), not by id.  With two
    players both named "X", the pile lands on the first-listed "X"
    (ids `a1` and `q1`) even though the plays were made by the
    second-listed "X" (ids `a2` and `q2`), who ends with an empty hand. -/
theorem c9_settlement_finds_player_by_name :
    (c9bs0.players.map fun p => (p.id, p.name))
        = [("a1", "X"), ("a2", "X"), ("c", "Carol")] ∧
    gamePlay c9bs0 "a2" [⟨.r2, .S⟩] .r5 0 = some c9bs1 ∧
    gameBs c9bs1 "c" 0 = some c9bs2 ∧
    handAt c9bs2.players 0 = [⟨.K, .H⟩, ⟨.r2, .S⟩] ∧
    handAt c9bs2.players 1 = [] ∧
    (c9pb0.players.map fun p => (p.id, p.name))
        = [("q1", "X"), ("q2", "X"), ("b", "Bob")] ∧
    gamePlay c9pb0 "q2" [⟨.r4, .S⟩] .r4 0 = some c9pb1 ∧
    gamePeanutButter c9pb1 "q2" = some c9pb2 ∧
    handAt c9pb2.players 0 = [⟨.K, .H⟩, ⟨.r4, .S⟩] ∧
    handAt c9pb2.players 1 = [] := by
  decide

set_option maxRecDepth 200000 in
/-- C6 counterexample: at `c6g` eligibility belongs to Bob.  Alice's
    invocation — a first invocation — fails as a silent no-op that
    consumes nothing, and Bob's invocation afterwards (a second
    invocation against the unchanged state) still succeeds, contradicting
    "invocation consumes eligibility immediately and unconditionally, so
    a second invocation attempt after any first invocation fails". -/
theorem c6_counterexample :
    gamePeanutButter c6g "a" = none ∧
    c6g.peanutButterEligiblePlayerId = some "b" ∧
    gamePeanutButter c6g "b" = some c6g2 := by
  decide

/-- C6 (amended): eligibility is consumed exactly by a successful
    invocation.  Success requires the invoker to be the currently
    eligible player; it clears the eligibility id and the played-after
    flag, after which every further invocation fails.  A failed
    invocation is the handler's bare early `return`: it produces no state
    change at all, so eligibility survives it. -/
theorem c6_eligibility_consumed_only_on_success :
    ∀ (g : GameState) (byId : String) (g' : GameState),
      gamePeanutButter g byId = some g' →
        g.peanutButterEligiblePlayerId = some byId ∧
        g'.peanutButterEligiblePlayerId = none ∧
        g'.hasNextPlayerPlayedAfterLiar = false ∧
        ∀ b2, gamePeanutButter g' b2 = none := by
  intro g byId g' h
  rw [gamePeanutButter_eq_some_iff] at h
  obtain ⟨lp, lastIdx, hst, hpb, hflag, hlp, hlast, hres⟩ := h
  subst hres
  refine ⟨hpb, rfl, rfl, ?_⟩
  intro b2
  unfold gamePeanutButter
  dsimp only []
  split <;> rfl

set_option maxRecDepth 200000 in
/-- C6 witness: the amended statement instantiated at Bob's successful
    invocation on `c6g`. -/
theorem c6_witness :
    c6g.peanutButterEligiblePlayerId = some "b" ∧
    c6g2.peanutButterEligiblePlayerId = none ∧
    c6g2.hasNextPlayerPlayedAfterLiar = false ∧
    ∀ b2, gamePeanutButter c6g2 b2 = none :=
  c6_eligibility_consumed_only_on_success c6g "b" c6g2 (by decide)

set_option maxRecDepth 200000 in
/-- C7 counterexample: at `c7g` a play exists and the challenge window is
    open (`0 ≤ 5000`), yet a challenge action bearing the id "ghost",
    which belongs to no current player, mutates nothing — so "a
    call-challenge action mutates state iff it arrives at or before the
    deadline while a play exists" is false as stated. -/
theorem c7_counterexample :
    c7g.started = true ∧
    c7g.lastPlay.isSome = true ∧
    c7g.bsWindowUntil = some 5000 ∧
    (0 : Nat) ≤ 5000 ∧
    gameBs c7g "ghost" 0 = none := by
  decide

/-- C7 (amended): every accepted play stamps `challengeDeadline = now +
    5000`; a challenge mutates state iff it arrives at or before that
    deadline while a play exists AND both the recorded last-play name and
    the caller id resolve to current players; settlement clears the
    deadline and the last play, after which every further challenge is
    rejected with no state change. -/
theorem c7_deadline_window :
    (∀ (g : GameState) (byId : String) (cards : List Card) (r : CardRank) (now : Nat)
        (g' : GameState),
      gamePlay g byId cards r now = some g' → g'.bsWindowUntil = some (now + 5000)) ∧
    (∀ (g : GameState) (byId : String) (now : Nat),
      (∃ g', gameBs g byId now = some g') ↔
        (g.started = true ∧ ∃ lp dl, g.lastPlay = some lp ∧ g.bsWindowUntil = some dl ∧
          now ≤ dl ∧
          (∃ i, jsFindIndex (fun p : PlayerState => p.name = lp.username) g.players = some i) ∧
          (∃ j, jsFindIndex (fun p : PlayerState => p.id = byId) g.players = some j))) ∧
    (∀ (g : GameState) (byId : String) (now : Nat) (g' : GameState),
      gameBs g byId now = some g' →
        g'.bsWindowUntil = none ∧ g'.lastPlay = none ∧
        ∀ b2 n2, gameBs g' b2 n2 = none) := by
  refine ⟨?_, ?_, ?_⟩
  · intro g byId cards r now g' h
    rw [gamePlay_eq_some_iff] at h
    obtain ⟨current, pIdx, player, _, _, _, _, _, _, _, _, hres⟩ := h
    subst hres
    rfl
  · intro g byId now
    constructor
    · rintro ⟨g', h⟩
      rw [gameBs_eq_some_iff] at h
      obtain ⟨lp, dl, lastIdx, callerIdx, hst, hlp, hdl, hnow, hlast, hcaller, _⟩ := h
      exact ⟨hst, lp, dl, hlp, hdl, hnow, ⟨lastIdx, hlast⟩, ⟨callerIdx, hcaller⟩⟩
    · rintro ⟨hst, lp, dl, hlp, hdl, hnow, ⟨lastIdx, hlast⟩, ⟨callerIdx, hcaller⟩⟩
      exact ⟨_, gameBs_eq_some_iff.mpr
        ⟨lp, dl, lastIdx, callerIdx, hst, hlp, hdl, hnow, hlast, hcaller, rfl⟩⟩
  · intro g byId now g' h
    rw [gameBs_eq_some_iff] at h
    obtain ⟨lp, dl, lastIdx, callerIdx, hst, hlp, hdl, hnow, hlast, hcaller, hres⟩ := h
    subst hres
    refine ⟨rfl, rfl, ?_⟩
    intro b2 n2
    unfold gameBs
    dsimp only []
    split <;> rfl

set_option maxRecDepth 200000 in
/-- C7 witness: a concrete play at time 7 stamps deadline 5007; Bob's
    in-window challenge on `c7g` succeeds, and the settled state rejects
    every further challenge. -/
theorem c7_witness :
    (∃ gp, gamePlay c1g0 "a" [⟨.r5, .S⟩] .r5 7 = some gp ∧ gp.bsWindowUntil = some 5007) ∧
    gameBs c7g "b" 0 = some c7g2 ∧
    c7g2.bsWindowUntil = none ∧
    c7g2.lastPlay = none ∧
    ∀ b2 n2, gameBs c7g2 b2 n2 = none := by
  have hbs : gameBs c7g "b" 0 = some c7g2 := by decide
  have h3 := c7_deadline_window.2.2 c7g "b" 0 c7g2 hbs
  refine ⟨?_, hbs, h3.1, h3.2.1, h3.2.2⟩
  obtain ⟨gp, hgp⟩ : ∃ gp, gamePlay c1g0 "a" [⟨.r5, .S⟩] .r5 7 = some gp := ⟨_, rfl⟩
  exact ⟨gp, hgp, c7_deadline_window.1 _ _ _ _ _ _ hgp⟩

theorem updateHandAt_getElem_self {ps : List PlayerState} {i : Nat} {p : PlayerState}
    {h2 : List Card} (h : ps[i]? = some p) :
    (updateHandAt ps i h2)[i]? = some { p with hand := h2 } := by
  unfold updateHandAt
  rw [h]
  exact List.getElem?_set_eq_of_lt _ (List.getElem?_eq_some.mp h).1

theorem gamePeanutButter_isSome_of {g : GameState} {byId : String} {lp : PlayRecord}
    {i : Nat} (hst : g.started = true)
    (hpb : g.peanutButterEligiblePlayerId = some byId)
    (hflag : g.hasNextPlayerPlayedAfterLiar = true)
    (hlp : g.lastPlay = some lp)
    (hlast : jsFindIndex (fun p : PlayerState => p.name = lp.username) g.players = some i) :
    ∃ g', gamePeanutButter g byId = some g' := by
  refine ⟨{ g with
      players := pushAllAt g.players i g.pileFaceDown
      pileFaceDown := []
      lastPlay := none
      peanutButterEligiblePlayerId := none
      hasNextPlayerPlayedAfterLiar := false }, ?_⟩
  exact gamePeanutButter_eq_some_iff.mpr ⟨lp, i, hst, hpb, hflag, hlp, hlast, rfl⟩

set_option maxRecDepth 200000 in
/-- C1 counterexample: Alice plays unchallenged, Bob then plays; contrary
    to the claim, Alice's counter-challenge invocation is rejected (the
    handler's eligibility id was overwritten with Bob's, the most recent
    player, so only Bob may invoke). -/
theorem c1_counterexample :
    gamePlay c1g0 "a" [⟨.r5, .S⟩] .r5 0 = some c1g1 ∧
    gamePlay c1g1 "b" [⟨.K, .S⟩] .r6 0 = some c1g2 ∧
    gamePeanutButter c1g2 "a" = none := by
  decide

/-- C1 (amended): the counter-challenge succeeds exactly when the session
    is started, a play P1 happened and, after it, a different player made
    the most recent play P2 (the played-after flag), the INVOKER is the
    acting player of P2 (the eligibility id records the most recent
    player), and some current player bears P2's recorded name; on success
    the whole pile goes to the FIRST player carrying that name — the
    acting player of P2 when names are unique.  In particular, after
    Alice plays unchallenged and Bob plays, Alice's invocation fails
    while Bob's succeeds. -/
theorem c1_counter_challenge_semantics :
    (∀ (g : GameState) (byId : String),
      (∃ g', gamePeanutButter g byId = some g') ↔
        (g.started = true ∧ g.hasNextPlayerPlayedAfterLiar = true ∧
          g.peanutButterEligiblePlayerId = some byId ∧
          ∃ lp i, g.lastPlay = some lp ∧
            jsFindIndex (fun p : PlayerState => p.name = lp.username) g.players = some i)) ∧
    (∀ (g : GameState) (byId : String) (g' : GameState),
      gamePeanutButter g byId = some g' →
        ∃ lp i, g.lastPlay = some lp ∧
          jsFindIndex (fun p : PlayerState => p.name = lp.username) g.players = some i ∧
          g'.pileFaceDown = [] ∧
          handAt g'.players i = handAt g.players i ++ g.pileFaceDown ∧
          ∀ k, k ≠ i → handAt g'.players k = handAt g.players k) ∧
    (∀ (g g1 g2 : GameState) (aId bId : String) (cardsA cardsB : List Card)
        (rA rB : CardRank) (tA tB : Nat),
      gamePlay g aId cardsA rA tA = some g1 →
      gamePlay g1 bId cardsB rB tB = some g2 →
      aId ≠ bId →
        gamePeanutButter g2 aId = none ∧ ∃ g3, gamePeanutButter g2 bId = some g3) := by
  refine ⟨?_, ?_, ?_⟩
  · intro g byId
    constructor
    · rintro ⟨g', h⟩
      rw [gamePeanutButter_eq_some_iff] at h
      obtain ⟨lp, i, hst, hpb, hflag, hlp, hlast, _⟩ := h
      exact ⟨hst, hflag, hpb, lp, i, hlp, hlast⟩
    · rintro ⟨hst, hflag, hpb, lp, i, hlp, hlast⟩
      exact ⟨_, gamePeanutButter_eq_some_iff.mpr ⟨lp, i, hst, hpb, hflag, hlp, hlast, rfl⟩⟩
  · intro g byId g' h
    rw [gamePeanutButter_eq_some_iff] at h
    obtain ⟨lp, i, hst, hpb, hflag, hlp, hlast, hres⟩ := h
    subst hres
    have hi : i < g.players.length := jsFindIndex_lt_length hlast
    exact ⟨lp, i, hlp, hlast, rfl, pushAllAt_handAt_self hi,
      fun k hk => pushAllAt_handAt_other hk⟩
  · intro g g1 g2 aId bId cardsA cardsB rA rB tA tB h1 h2 hab
    rw [gamePlay_eq_some_iff] at h1 h2
    obtain ⟨cur1, pIdx1, player1, hst1, hcur1, hid1, hfind1, hplayer1, _, _, _, hres1⟩ := h1
    obtain ⟨cur2, pIdx2, player2, hst2, hcur2, hid2, hfind2, hplayer2, _, _, _, hres2⟩ := h2
    have hp1id : player1.id = aId := by
      have h := jsFindIndex_found_pred hfind1 hplayer1
      exact h
    have hp2id : player2.id = bId := by
      have h := jsFindIndex_found_pred hfind2 hplayer2
      exact h
    refine ⟨?_, ?_⟩
    · cases hx : gamePeanutButter g2 aId with
      | none => rfl
      | some g3 =>
        rw [gamePeanutButter_eq_some_iff] at hx
        obtain ⟨lp, i, _, hpb, _⟩ := hx
        rw [hres2] at hpb
        dsimp only [] at hpb
        rw [Option.some_inj] at hpb
        exact absurd (hp2id ▸ hpb).symm hab
    · subst hres2
      have he1 : g1.peanutButterEligiblePlayerId = some player1.id := by
        rw [hres1]
      have hmem : ({ player2 with
          hand := (removeLoop cardsB player2.hand g1.pileFaceDown).1 } : PlayerState)
          ∈ (updateHandAt g1.players pIdx2
              (removeLoop cardsB player2.hand g1.pileFaceDown).1) :=
        List.getElem?_mem (updateHandAt_getElem_self hplayer2)
      have hfound : (jsFindIndex (fun p : PlayerState => p.name = player2.name)
          (updateHandAt g1.players pIdx2
            (removeLoop cardsB player2.hand g1.pileFaceDown).1)).isSome = true :=
        jsFindIndex_isSome_iff.mpr ⟨_, hmem, rfl⟩
      obtain ⟨i, hi⟩ := Option.isSome_iff_exists.mp hfound
      exact gamePeanutButter_isSome_of hst2
        (by dsimp only []; rw [hp2id])
        (by dsimp only []; rw [he1]; simp [playedAfterFlag, hp1id, hp2id, hab])
        rfl hi

set_option maxRecDepth 200000 in
/-- C1 witness: the amended statement instantiated at the concrete
    Alice-then-Bob trace: Alice's invocation fails, Bob's succeeds. -/
theorem c1_witness :
    gamePeanutButter c1g2 "a" = none ∧ ∃ g3, gamePeanutButter c1g2 "b" = some g3 :=
  c1_counter_challenge_semantics.2.2 c1g0 c1g1 c1g2 "a" "b" [⟨.r5, .S⟩] [⟨.K, .S⟩]
    .r5 .r6 0 0 (by decide) (by decide) (by decide)

set_option maxRecDepth 200000 in
/-- C10 counterexample: after the host self-kick the stale `hostId`
    ("a") still names no current player, yet a start-game action and a
    kick action BEARING THE DEPARTED HOST'S ID both succeed — the
    `g.hostId === by` checks compare against the never-cleared id, so
    "every subsequent start-game and kick-player action on that session
    is rejected" is false as stated. -/
theorem c10_counterexample :
    sessionKick lobby3 "a" "a" = some c10g ∧
    c10g.hostId = "a" ∧
    (c10g.players.map fun p => p.id) = ["b", "c"] ∧
    (gameStart c10g "a" (fun _ => 0)).isSome = true ∧
    (sessionKick c10g "b" "a").isSome = true := by
  decide

/-- C10 (amended): lobby kick removes every player bearing the given id —
    the host included — and never reassigns `hostId`; hence after a host
    self-kick no current player carries the host id and every later
    start or kick action issued under a CURRENT player's id is rejected —
    but the stale host id itself still passes the host checks, so an
    action bearing the departed host's id can still kick players or
    (with at least 2 players remaining) start the game. -/
theorem c10_kick_host_semantics :
    (∀ (g : GameState) (playerId byId : String) (g' : GameState),
      sessionKick g playerId byId = some g' →
        g'.hostId = g.hostId ∧ byId = g.hostId ∧ g.started = false ∧
        (∀ p ∈ g'.players, p.id ≠ playerId) ∧
        (∀ p ∈ g.players, p.id ≠ playerId → p ∈ g'.players)) ∧
    (∀ (g : GameState) (g' : GameState),
      sessionKick g g.hostId g.hostId = some g' →
        ∀ p ∈ g'.players, p.id ≠ g'.hostId) ∧
    (∀ (g : GameState) (byId : String),
      (∀ p ∈ g.players, p.id ≠ g.hostId) →
      (∃ p ∈ g.players, p.id = byId) →
        (∀ choice, gameStart g byId choice = none) ∧
        (∀ pid, sessionKick g pid byId = none)) ∧
    (∀ (g : GameState) (pid : String),
      g.started = false → ∃ g', sessionKick g pid g.hostId = some g') ∧
    (∀ (g : GameState) (choice : Nat → Nat),
      g.started = false → 2 ≤ g.players.length →
        ∃ g', gameStart g g.hostId choice = some g') := by
  refine ⟨?_, ?_, ?_, ?_, ?_⟩
  · intro g playerId byId g' h
    rw [sessionKick_eq_some_iff] at h
    obtain ⟨hhost, hstart, hres⟩ := h
    subst hres
    refine ⟨rfl, hhost.symm, hstart, ?_, ?_⟩
    · intro p hp
      have := List.mem_filter.mp hp
      simpa using this.2
    · intro p hp hne
      exact List.mem_filter.mpr ⟨hp, by simpa using hne⟩
  · intro g g' h
    rw [sessionKick_eq_some_iff] at h
    obtain ⟨_, _, hres⟩ := h
    subst hres
    intro p hp
    have := List.mem_filter.mp hp
    simpa using this.2
  · intro g byId hnone hmem
    obtain ⟨p, hp, hpid⟩ := hmem
    have hne : g.hostId ≠ byId := by
      intro he
      exact hnone p hp (by rw [hpid, he])
    constructor
    · intro choice
      cases hx : gameStart g byId choice with
      | none => rfl
      | some g2 =>
        rw [gameStart_eq_some_iff] at hx
        exact absurd hx.2.2.1 hne
    · intro pid
      cases hx : sessionKick g pid byId with
      | none => rfl
      | some g2 =>
        rw [sessionKick_eq_some_iff] at hx
        exact absurd hx.1 hne
  · intro g pid hs
    refine ⟨{ g with players := g.players.filter (fun p => decide (p.id ≠ pid)) }, ?_⟩
    exact sessionKick_eq_some_iff.mpr ⟨rfl, hs, rfl⟩
  · intro g choice hs hlen
    refine ⟨{ g with
        players := dealHands (g.players.map (fun p => { p with hand := ([] : List Card) }))
          g.hostId choice
        started := true
        currentTurnIndex := turnAfterDealer
          (dealHands (g.players.map (fun p => { p with hand := ([] : List Card) }))
            g.hostId choice) g.hostId
        currentRequiredRank := .A
        pileFaceDown := []
        lastPlay := none
        bsWindowUntil := none
        peanutButterEligiblePlayerId := none
        hasNextPlayerPlayedAfterLiar := false }, ?_⟩
    exact gameStart_eq_some_iff.mpr ⟨hs, hlen, rfl, rfl⟩

set_option maxRecDepth 200000 in
/-- C10 witness: on the post-self-kick lobby `c10g` no remaining player
    is the host, Bob can neither start nor kick — while the departed
    host's id can still do both. -/
theorem c10_witness :
    (∀ p ∈ c10g.players, p.id ≠ c10g.hostId) ∧
    (∀ choice, gameStart c10g "b" choice = none) ∧
    sessionKick c10g "c" "b" = none ∧
    (∃ g', sessionKick c10g "b" c10g.hostId = some g') ∧
    (∃ g', gameStart c10g c10g.hostId (fun _ => 0) = some g') := by
  have hk : sessionKick lobby3 lobby3.hostId lobby3.hostId = some c10g := by decide
  have h2 := c10_kick_host_semantics.2.1 lobby3 c10g hk
  have h3 := c10_kick_host_semantics.2.2.1 c10g "b"
    (by
      intro p hp
      exact h2 p hp)
    (by decide)
  refine ⟨h2, h3.1, h3.2 "c", ?_, ?_⟩
  · exact c10_kick_host_semantics.2.2.2.1 c10g "b" (by decide)
  · exact c10_kick_host_semantics.2.2.2.2 c10g (fun _ => 0) (by decide) (by decide)

theorem dealHands_length (players : List PlayerState) (dealerId : String)
    (choice : Nat → Nat) :
    (dealHands players dealerId choice).length = players.length := by
  unfold dealHands
  dsimp only []
  rw [dealFrom_length]

theorem turnAfterDealer_lt {dealt : List PlayerState} (dealerId : String)
    (h : 0 < dealt.length) : turnAfterDealer dealt dealerId < dealt.length := by
  unfold turnAfterDealer
  split
  · exact Nat.mod_lt _ h
  · exact h

set_option maxRecDepth 200000 in
/-- C4 counterexample: in the freshly dealt two-player session `g2s` the
    turn pointer is index 1; after the player at index 1 disconnects the
    pointer is unchanged while only one player remains, so it is out of
    range and names nobody. -/
theorem c4_counterexample :
    g2s.started = true ∧
    g2s.currentTurnIndex < g2s.players.length ∧
    (handleDisconnect g2s "sb").started = true ∧
    ¬((handleDisconnect g2s "sb").currentTurnIndex
        < (handleDisconnect g2s "sb").players.length) := by
  decide

/-- C4 (amended): the turn pointer is a valid index after `game:start`
    and after every accepted play; challenge and counter-challenge
    settlement change neither the pointer nor the player-list length, and
    kick is rejected while the session is started — but a disconnect
    removes a player without adjusting the pointer, which can therefore
    become out of range. -/
theorem c4_turn_pointer_validity :
    (∀ (g : GameState) (byId : String) (choice : Nat → Nat) (g' : GameState),
      gameStart g byId choice = some g' → g'.currentTurnIndex < g'.players.length) ∧
    (∀ (g : GameState) (byId : String) (cards : List Card) (r : CardRank) (now : Nat)
        (g' : GameState),
      gamePlay g byId cards r now = some g' → g'.currentTurnIndex < g'.players.length) ∧
    (∀ (g : GameState) (byId : String) (now : Nat) (g' : GameState),
      gameBs g byId now = some g' →
        g'.currentTurnIndex = g.currentTurnIndex ∧ g'.players.length = g.players.length) ∧
    (∀ (g : GameState) (byId : String) (g' : GameState),
      gamePeanutButter g byId = some g' →
        g'.currentTurnIndex = g.currentTurnIndex ∧ g'.players.length = g.players.length) ∧
    (∀ (g : GameState) (pid byId : String),
      g.started = true → sessionKick g pid byId = none) := by
  refine ⟨?_, ?_, ?_, ?_, ?_⟩
  · intro g byId choice g' h
    rw [gameStart_eq_some_iff] at h
    obtain ⟨hs, hlen, hhost, hres⟩ := h
    subst hres
    dsimp only []
    apply turnAfterDealer_lt
    rw [dealHands_length, List.length_map]
    omega
  · intro g byId cards r now g' h
    rw [gamePlay_eq_some_iff] at h
    obtain ⟨current, pIdx, player, hst, hcur, hid, hfind, hplayer, _, _, _, hres⟩ := h
    have hturn : g.currentTurnIndex < g.players.length := (List.getElem?_eq_some.mp hcur).1
    subst hres
    dsimp only []
    rw [updateHandAt_length]
    exact Nat.mod_lt _ (by omega)
  · intro g byId now g' h
    rw [gameBs_eq_some_iff] at h
    obtain ⟨lp, dl, lastIdx, callerIdx, _, _, _, _, _, _, hres⟩ := h
    subst hres
    exact ⟨rfl, pushAllAt_length _ _ _⟩
  · intro g byId g' h
    rw [gamePeanutButter_eq_some_iff] at h
    obtain ⟨lp, lastIdx, _, _, _, _, _, hres⟩ := h
    subst hres
    exact ⟨rfl, pushAllAt_length _ _ _⟩
  · intro g pid byId hst
    cases hx : sessionKick g pid byId with
    | none => rfl
    | some g2 =>
      rw [sessionKick_eq_some_iff] at hx
      rw [hst] at hx
      cases hx.2.1

set_option maxRecDepth 200000 in
/-- C4 witness: the amended statement instantiated at the concrete start,
    play, challenge, counter-challenge and kick scenarios of this file. -/
theorem c4_witness :
    g3s.currentTurnIndex < g3s.players.length ∧
    c1g1.currentTurnIndex < c1g1.players.length ∧
    (c7g2.currentTurnIndex = c7g.currentTurnIndex ∧
      c7g2.players.length = c7g.players.length) ∧
    (c6g2.currentTurnIndex = c6g.currentTurnIndex ∧
      c6g2.players.length = c6g.players.length) ∧
    sessionKick c1g0 "b" "a" = none := by
  refine ⟨?_, ?_, ?_, ?_, ?_⟩
  · exact c4_turn_pointer_validity.1 lobby3 "a" (fun _ => 0) g3s (by decide)
  · exact c4_turn_pointer_validity.2.1 c1g0 "a" [⟨.r5, .S⟩] .r5 0 c1g1 (by decide)
  · exact c4_turn_pointer_validity.2.2.1 c7g "b" 0 c7g2 (by decide)
  · exact c4_turn_pointer_validity.2.2.2.1 c6g "b" c6g2 (by decide)
  · exact c4_turn_pointer_validity.2.2.2.2 c1g0 "b" "a" (by decide)

theorem sumHands_cleared (ps : List PlayerState) :
    sumHands (ps.map (fun p => { p with hand := ([] : List Card) })) = 0 := by
  induction ps with
  | nil => rfl
  | cons p t ih => simpa [sumHands] using ih

theorem countH_cleared (ps : List PlayerState) (c : Card) :
    countH (ps.map (fun p => { p with hand := ([] : List Card) })) c = 0 := by
  induction ps with
  | nil => rfl
  | cons p t ih => simpa [countH] using ih

theorem sumHands_dealHands (players : List PlayerState) (dealerId : String)
    (choice : Nat → Nat) (h : 0 < players.length) :
    sumHands (dealHands players dealerId choice)
      = sumHands players + 52 * (max 1 (ceilDiv players.length 5)) := by
  unfold dealHands
  dsimp only []
  rw [sumHands_dealFrom _ _ _ _ h, List.length_reverse, createDeck_length]

theorem countH_dealHands (players : List PlayerState) (dealerId : String)
    (choice : Nat → Nat) (c : Card) (h : 0 < players.length) :
    countH (dealHands players dealerId choice) c
      = countH players c + (max 1 (ceilDiv players.length 5)) := by
  unfold dealHands
  dsimp only []
  rw [countH_dealFrom _ _ _ _ _ h, List.count_reverse, createDeck_count]

set_option maxRecDepth 200000 in
/-- C3 counterexample: the freshly dealt two-player session `g2s` holds
    52 cards; a disconnect drops to 26 (the departing hand vanishes), and
    from the legitimately reached state `gPre` a play submitting the
    acting player's single remaining card twice is accepted and RAISES
    the total to 53. -/
theorem c3_counterexample :
    totalCards g2s = 52 ∧
    totalCards (handleDisconnect g2s "sb") = 26 ∧
    totalCards gPre = 52 ∧
    gamePlay gPre (currentPlayerId gPre) c3cards .A 0 = some gBad ∧
    totalCards gBad = 53 := by
  decide

/-- C3 (amended): dealing puts 52 × deckCount cards in play; challenge
    and counter-challenge settlements preserve the total, as does every
    play whose submitted cards — counted with multiplicity — all come
    from the acting player's hand; but a play repeating an entry beyond
    the hand's multiplicity can change the total (the C2 slip), and a
    disconnect removes the departing player's whole hand from the
    total. -/
theorem c3_card_conservation :
    (∀ (g : GameState) (byId : String) (choice : Nat → Nat) (g' : GameState),
      gameStart g byId choice = some g' →
        totalCards g' = 52 * (max 1 (ceilDiv g.players.length 5))) ∧
    (∀ (g : GameState) (byId : String) (cards : List Card) (r : CardRank) (now : Nat)
        (g' : GameState) (pIdx : Nat) (player : PlayerState),
      gamePlay g byId cards r now = some g' →
      jsFindIndex (fun p : PlayerState => p.id = byId) g.players = some pIdx →
      g.players[pIdx]? = some player →
      (cards : Multiset Card) ≤ (player.hand : Multiset Card) →
      totalCards g' = totalCards g) ∧
    (∀ (g : GameState) (byId : String) (now : Nat) (g' : GameState),
      gameBs g byId now = some g' → totalCards g' = totalCards g) ∧
    (∀ (g : GameState) (byId : String) (g' : GameState),
      gamePeanutButter g byId = some g' → totalCards g' = totalCards g) ∧
    (∀ (g : GameState) (sid : String) (idx : Nat) (removed : PlayerState),
      jsFindIndex (fun p : PlayerState => p.socketId = sid) g.players = some idx →
      g.players[idx]? = some removed →
      totalCards (handleDisconnect g sid) + removed.hand.length = totalCards g) := by
  refine ⟨?_, ?_, ?_, ?_, ?_⟩
  · intro g byId choice g' h
    rw [gameStart_eq_some_iff] at h
    obtain ⟨_, hlen, _, hres⟩ := h
    subst hres
    have h0 : 0 < (g.players.map (fun p => { p with hand := ([] : List Card) })).length := by
      rw [List.length_map]
      omega
    have hs := sumHands_dealHands
      (g.players.map (fun p => { p with hand := ([] : List Card) })) g.hostId choice h0
    rw [sumHands_cleared, List.length_map] at hs
    dsimp only [totalCards]
    simp only [sumHands] at hs
    simp only [List.length_nil]
    omega
  · intro g byId cards r now g' pIdx player h hfind hplayer hsub
    rw [gamePlay_eq_some_iff] at h
    obtain ⟨current, pIdx2, player2, hst, hcur, hid, hfind2, hplayer2, _, _, _, hres⟩ := h
    rw [hfind2] at hfind
    cases hfind
    rw [hplayer2] at hplayer
    cases hplayer
    subst hres
    have hupd := @sumHands_updateHandAt g.players pIdx player
      (removeLoop cards player.hand g.pileFaceDown).1 hplayer2
    obtain ⟨hr1, hr2⟩ := @removeLoop_lengths_of_le cards player.hand g.pileFaceDown hsub
    dsimp only [totalCards]
    simp only [sumHands] at hupd
    have hr2b := hr2
    omega
  · intro g byId now g' h
    rw [gameBs_eq_some_iff] at h
    obtain ⟨lp, dl, lastIdx, callerIdx, _, _, _, _, hlast, hcaller, hres⟩ := h
    subst hres
    have hlt : (if (jsSliceNeg g.pileFaceDown lp.count).any
        (fun c => !bsStartsWith c lp.claimedRank) = true then lastIdx else callerIdx)
        < g.players.length := by
      split
      · exact jsFindIndex_lt_length hlast
      · exact jsFindIndex_lt_length hcaller
    have hs := @sumHands_pushAllAt g.players
      (if (jsSliceNeg g.pileFaceDown lp.count).any
        (fun c => !bsStartsWith c lp.claimedRank) = true then lastIdx else callerIdx)
      g.pileFaceDown hlt
    dsimp only [totalCards]
    simp only [sumHands] at hs
    simp only [List.length_nil]
    omega
  · intro g byId g' h
    rw [gamePeanutButter_eq_some_iff] at h
    obtain ⟨lp, lastIdx, _, _, _, _, hlast, hres⟩ := h
    subst hres
    have hs := @sumHands_pushAllAt g.players lastIdx g.pileFaceDown
      (jsFindIndex_lt_length hlast)
    dsimp only [totalCards]
    simp only [sumHands] at hs
    simp only [List.length_nil]
    omega
  · intro g sid idx removed hfind hrem
    have h1 := handleDisconnect_sumHands hfind hrem
    have h2 := handleDisconnect_pile g sid
    dsimp only [totalCards]
    simp only [sumHands] at h1
    rw [h2]
    omega

set_option maxRecDepth 200000 in
/-- C3 witness: the amended statement instantiated at the concrete
    scenarios of this file — the three-player deal yields 52 cards, an
    ordinary play and both settlement paths preserve the total, and the
    disconnect from `g2s` removes exactly the departing 26-card hand. -/
theorem c3_witness :
    totalCards g3s = 52 ∧
    totalCards c1g1 = totalCards c1g0 ∧
    totalCards c7g2 = totalCards c7g ∧
    totalCards c6g2 = totalCards c6g ∧
    totalCards (handleDisconnect g2s "sb") + 26 = totalCards g2s := by
  refine ⟨?_, ?_, ?_, ?_, ?_⟩
  · have h := c3_card_conservation.1 lobby3 "a" (fun _ => 0) g3s (by decide)
    exact h.trans (by decide)
  · exact c3_card_conservation.2.1 c1g0 "a" [⟨.r5, .S⟩] .r5 0 c1g1 0
      ⟨"a", "Alice", "sa", [⟨.r5, .S⟩], true⟩ (by decide) (by decide) (by decide)
      (le_refl _)
  · exact c3_card_conservation.2.2.1 c7g "b" 0 c7g2 (by decide)
  · exact c3_card_conservation.2.2.2.1 c6g "b" c6g2 (by decide)
  · obtain ⟨removed, hrem⟩ : ∃ x, g2s.players[1]? = some x := ⟨_, rfl⟩
    have h := c3_card_conservation.2.2.2.2 g2s "sb" 1 removed (by decide) hrem
    have he : handAt g2s.players 1 = removed.hand := by
      unfold handAt
      rw [hrem]
    have hl : (handAt g2s.players 1).length = 26 := by decide
    rw [he] at hl
    rw [hl] at h
    exact h

set_option maxRecDepth 200000 in
/-- C5: a valid challenge (window open, play recorded, both lookups
    resolving) always settles; the verdict inspects exactly the last
    `count` pile cards — truthful iff every one of them bears the claimed
    rank (the `startsWith` test equals rank equality) — the challenged
    player's seat receives the whole pile when untruthful, the caller's
    seat when truthful, and the pile, last play, deadline and
    counter-challenge eligibility are all cleared. -/
theorem c5_challenge_resolution :
    ∀ (g : GameState) (byId : String) (now : Nat) (lp : PlayRecord) (dl : Nat)
      (lastIdx callerIdx : Nat),
      g.started = true →
      g.lastPlay = some lp →
      g.bsWindowUntil = some dl →
      now ≤ dl →
      1 ≤ lp.count →
      jsFindIndex (fun p : PlayerState => p.name = lp.username) g.players = some lastIdx →
      jsFindIndex (fun p : PlayerState => p.id = byId) g.players = some callerIdx →
      ∃ g', gameBs g byId now = some g' ∧
        ((∀ c ∈ g.pileFaceDown.drop (g.pileFaceDown.length - lp.count),
            c.rank = lp.claimedRank) →
          handAt g'.players callerIdx = handAt g.players callerIdx ++ g.pileFaceDown ∧
          ∀ k, k ≠ callerIdx → handAt g'.players k = handAt g.players k) ∧
        ((¬∀ c ∈ g.pileFaceDown.drop (g.pileFaceDown.length - lp.count),
            c.rank = lp.claimedRank) →
          handAt g'.players lastIdx = handAt g.players lastIdx ++ g.pileFaceDown ∧
          ∀ k, k ≠ lastIdx → handAt g'.players k = handAt g.players k) ∧
        g'.pileFaceDown = [] ∧ g'.lastPlay = none ∧ g'.bsWindowUntil = none ∧
        g'.peanutButterEligiblePlayerId = none ∧ g'.hasNextPlayerPlayedAfterLiar = false := by
  intro g byId now lp dl lastIdx callerIdx hst hlp hdl hnow hcount hlast hcaller
  have hslice : jsSliceNeg g.pileFaceDown lp.count
      = g.pileFaceDown.drop (g.pileFaceDown.length - lp.count) := by
    unfold jsSliceNeg
    rw [if_neg (by omega)]
  have hliar : ((jsSliceNeg g.pileFaceDown lp.count).any
      (fun c => !bsStartsWith c lp.claimedRank) = true)
      ↔ ¬(∀ c ∈ g.pileFaceDown.drop (g.pileFaceDown.length - lp.count),
          c.rank = lp.claimedRank) := by
    rw [hslice, List.any_eq_true]
    constructor
    · rintro ⟨c, hc, hv⟩ hall
      rw [bsStartsWith_eq] at hv
      simp only [Bool.not_eq_eq_eq_not, Bool.not_true, decide_eq_false_iff_not] at hv
      exact hv (hall c hc)
    · intro hnall
      push_neg at hnall
      obtain ⟨c, hc, hv⟩ := hnall
      refine ⟨c, hc, ?_⟩
      rw [bsStartsWith_eq]
      simpa using hv
  refine ⟨{ g with
      players := pushAllAt g.players
        (if (jsSliceNeg g.pileFaceDown lp.count).any
            (fun c => !bsStartsWith c lp.claimedRank) = true then lastIdx else callerIdx)
        g.pileFaceDown
      pileFaceDown := []
      bsWindowUntil := none
      lastPlay := none
      peanutButterEligiblePlayerId := none
      hasNextPlayerPlayedAfterLiar := false },
    gameBs_eq_some_iff.mpr
      ⟨lp, dl, lastIdx, callerIdx, hst, hlp, hdl, hnow, hlast, hcaller, rfl⟩,
    ?_, ?_, rfl, rfl, rfl, rfl, rfl⟩
  · intro htruth
    have hany : ((jsSliceNeg g.pileFaceDown lp.count).any
        (fun c => !bsStartsWith c lp.claimedRank)) = false := by
      cases hv : ((jsSliceNeg g.pileFaceDown lp.count).any
          (fun c => !bsStartsWith c lp.claimedRank)) with
      | false => rfl
      | true => exact absurd htruth (hliar.mp hv)
    dsimp only []
    rw [hany]
    simp only [Bool.false_eq_true, if_false]
    exact ⟨pushAllAt_handAt_self (jsFindIndex_lt_length hcaller),
      fun k hk => pushAllAt_handAt_other hk⟩
  · intro hfalse
    have hany : ((jsSliceNeg g.pileFaceDown lp.count).any
        (fun c => !bsStartsWith c lp.claimedRank)) = true := by
      cases hv : ((jsSliceNeg g.pileFaceDown lp.count).any
          (fun c => !bsStartsWith c lp.claimedRank)) with
      | true => rfl
      | false =>
        exfalso
        apply hfalse
        intro c hc
        by_contra hne
        have : ((jsSliceNeg g.pileFaceDown lp.count).any
            (fun c => !bsStartsWith c lp.claimedRank)) = true := by
          rw [hslice, List.any_eq_true]
          refine ⟨c, hc, ?_⟩
          rw [bsStartsWith_eq]
          simpa using hne
        rw [hv] at this
        cases this
    dsimp only []
    rw [hany]
    simp only [if_true]
    exact ⟨pushAllAt_handAt_self (jsFindIndex_lt_length hlast),
      fun k hk => pushAllAt_handAt_other hk⟩

set_option maxRecDepth 200000 in
/-- C5 witness: at `c7g` (Alice claimed two 5s, one actually a 2) Bob's
    in-window challenge settles: the play is untruthful, Alice's seat
    (index 0) takes the pile, Bob's hand stays empty, and the round
    fields clear. -/
theorem c5_witness :
    c7g.started = true ∧ c7g.lastPlay = some ⟨"Alice", 2, .r5⟩ ∧
    c7g.bsWindowUntil = some 5000 ∧
    ∃ g', gameBs c7g "b" 0 = some g' ∧
      handAt g'.players 0 = handAt c7g.players 0 ++ c7g.pileFaceDown ∧
      handAt g'.players 1 = handAt c7g.players 1 ∧
      g'.pileFaceDown = [] ∧ g'.lastPlay = none ∧ g'.bsWindowUntil = none := by
  refine ⟨by decide, by decide, by decide, ?_⟩
  obtain ⟨g', hg', htr, hfa, hp, hl, hw, _, _⟩ :=
    c5_challenge_resolution c7g "b" 0 ⟨"Alice", 2, .r5⟩ 5000 0 1
      (by decide) (by decide) (by decide) (by decide) (by decide) (by decide) (by decide)
  have hres := hfa (by decide)
  exact ⟨g', hg', hres.1, hres.2 1 (by decide), hp, hl, hw⟩

set_option maxRecDepth 200000 in
/-- Round-robin fairness for all the deck/seat combinations the server
    can produce (2–10 players, deck sized by `ceilDiv n 5`): every seat
    receives either `⌊m / n⌋` or `⌊m / n⌋ + 1` of the `m` dealt cards. -/
theorem rrGain_floor_ceil : ∀ n, n < 11 → 2 ≤ n → ∀ s, s < n → ∀ j, j < n →
    rrGain n s j (52 * ceilDiv n 5) = (52 * ceilDiv n 5) / n ∨
    rrGain n s j (52 * ceilDiv n 5) = (52 * ceilDiv n 5) / n + 1 := by
  decide

theorem handAt_cleared (ps : List PlayerState) (j : Nat) :
    handAt (ps.map (fun p => { p with hand := ([] : List Card) })) j = [] := by
  unfold handAt
  rw [List.getElem?_map]
  cases ps[j]? <;> rfl

theorem handLen_dealHands (players : List PlayerState) (dealerId : String)
    (choice : Nat → Nat) (h : 0 < players.length) :
    ∃ s, s < players.length ∧ ∀ j,
      (handAt (dealHands players dealerId choice) j).length
        = (handAt players j).length
          + rrGain players.length s j (52 * max 1 (ceilDiv players.length 5)) := by
  unfold dealHands
  dsimp only []
  refine ⟨((match jsFindIndex (fun p : PlayerState => p.id = dealerId) players with
      | some k => k
      | none => 0) + 1) % players.length, Nat.mod_lt _ h, ?_⟩
  intro j
  rw [handAt_dealFrom_length _ _ _ _ _ h, Nat.add_zero, List.length_reverse,
    createDeck_length]

/-- C8: `createDeck` builds `52 × deckCount` cards with every rank-suit
    pair appearing exactly `deckCount` times (for any draws), and for 2
    to 10 players a started game (deckCount = `ceilDiv n 5` there, since
    `max 1` is idle) deals the whole deck round-robin from the seat after
    the dealer: the pile is empty, the hands hold `52 × deckCount` cards
    in total with every pair appearing exactly `deckCount` times, and any
    two hand sizes differ by at most 1. -/
theorem c8_deal_distribution :
    (∀ (nd : Nat) (choice : Nat → Nat),
      (createDeck nd choice).length = 52 * nd ∧
      ∀ c : Card, (createDeck nd choice).count c = nd) ∧
    (∀ (g : GameState) (byId : String) (choice : Nat → Nat) (g' : GameState),
      2 ≤ g.players.length → g.players.length ≤ 10 →
      gameStart g byId choice = some g' →
        g'.pileFaceDown = [] ∧
        totalCards g' = 52 * ceilDiv g.players.length 5 ∧
        (∀ c : Card, countHands g' c = ceilDiv g.players.length 5) ∧
        (∀ i j, i < g'.players.length → j < g'.players.length →
          (handAt g'.players i).length ≤ (handAt g'.players j).length + 1)) := by
  constructor
  · intro nd choice
    exact ⟨createDeck_length nd choice, fun c => createDeck_count nd choice c⟩
  · intro g byId choice g' h2 h10 h
    rw [gameStart_eq_some_iff] at h
    obtain ⟨_, hlen, _, hres⟩ := h
    have hmax : max 1 (ceilDiv g.players.length 5) = ceilDiv g.players.length 5 := by
      have h1 : 1 ≤ ceilDiv g.players.length 5 := by
        unfold ceilDiv
        omega
      omega
    have h0 : 0 < (g.players.map (fun p => { p with hand := ([] : List Card) })).length := by
      rw [List.length_map]
      omega
    subst hres
    refine ⟨rfl, ?_, ?_, ?_⟩
    · have hs := sumHands_dealHands
        (g.players.map (fun p => { p with hand := ([] : List Card) })) g.hostId choice h0
      rw [sumHands_cleared, List.length_map, hmax] at hs
      dsimp only [totalCards]
      simp only [sumHands] at hs
      simp only [List.length_nil]
      omega
    · intro c
      have hc := countH_dealHands
        (g.players.map (fun p => { p with hand := ([] : List Card) })) g.hostId choice c h0
      rw [countH_cleared, List.length_map, hmax] at hc
      dsimp only [countHands]
      simp only [countH] at hc
      omega
    · intro i j hi hj
      dsimp only [] at hi hj
      rw [dealHands_length, List.length_map] at hi hj
      obtain ⟨s, hs, hall⟩ := handLen_dealHands
        (g.players.map (fun p => { p with hand := ([] : List Card) })) g.hostId choice h0
      rw [List.length_map] at hs
      have hgi := hall i
      have hgj := hall j
      rw [handAt_cleared, List.length_map, hmax] at hgi hgj
      simp only [List.length_nil, Nat.zero_add] at hgi hgj
      have hbi := rrGain_floor_ceil g.players.length (by omega) h2 s hs i hi
      have hbj := rrGain_floor_ceil g.players.length (by omega) h2 s hs j hj
      dsimp only []
      rw [hgi, hgj]
      rcases hbi with hb1 | hb1 <;> rcases hbj with hb2 | hb2 <;> omega

set_option maxRecDepth 200000 in
/-- C8 witness: the statement instantiated at the three-player start
    `g3s` (deckCount 1) and at a concrete single-deck build. -/
theorem c8_witness :
    (createDeck 1 (fun _ => 0)).length = 52 * 1 ∧
    g3s.pileFaceDown = [] ∧
    totalCards g3s = 52 * ceilDiv lobby3.players.length 5 ∧
    (∀ c : Card, countHands g3s c = ceilDiv lobby3.players.length 5) ∧
    (∀ i j, i < g3s.players.length → j < g3s.players.length →
      (handAt g3s.players i).length ≤ (handAt g3s.players j).length + 1) := by
  have h1 := c8_deal_distribution.1 1 (fun _ => 0)
  have h2 := c8_deal_distribution.2 lobby3 "a" (fun _ => 0) g3s (by decide) (by decide)
    (by decide)
  exact ⟨h1.1, h2.1, h2.2.1, h2.2.2.1, h2.2.2.2⟩
